import Mathlib

set_option maxRecDepth 200000

/-!
Verification development for the SlimeZ deterministic shop generator
(src/generate_shop.py).  The Python program is shallowly embedded below:
datetimes become an explicit record of UTC fields, the SHA-256 based seed
derivation, the CPython Mersenne-Twister generator and the weighted
`random.choices` sampler are reproduced as pure executable functions over
`Nat`/`ℚ`, file I/O becomes an explicit prior-file-content argument, and
`main`'s rotation logic becomes a total function from those inputs to the
run's outcome.  Theorems about the claims of the specification follow the
definitions.
-/

/-! ## Characters, digits and padded decimal fields -/

/-- Decimal digit characters used by zero-padded timestamp fields. -/
def dChar (k : Nat) : Char :=
  match k with
  | 0 => '0' | 1 => '1' | 2 => '2' | 3 => '3' | 4 => '4'
  | 5 => '5' | 6 => '6' | 7 => '7' | 8 => '8' | _ => '9'

/-- Character of the low decimal digit of a natural number. -/
def natDigitChar (n : Nat) : Char := dChar (n % 10)

/-- Two-digit zero-padded decimal rendering, as produced by strftime
percent-H, percent-M and friends and by datetime.isoformat. -/
def pad2 (n : Nat) : List Char := [natDigitChar (n / 10), natDigitChar n]

/-- Four-digit zero-padded decimal rendering for the year field. -/
def pad4 (n : Nat) : List Char :=
  [natDigitChar (n / 1000), natDigitChar (n / 100), natDigitChar (n / 10), natDigitChar n]

/-- Six-digit zero-padded decimal rendering for the microsecond field. -/
def pad6 (n : Nat) : List Char :=
  [natDigitChar (n / 100000), natDigitChar (n / 10000), natDigitChar (n / 1000),
   natDigitChar (n / 100), natDigitChar (n / 10), natDigitChar n]

/-! ## Datetimes

The program only ever manipulates timezone-aware UTC datetimes (from
datetime.now with timezone.utc, and timestamps re-read from its own file),
plus naive datetimes that a hand-written state file could contain.  A
datetime is the record of its fields together with a flag saying whether it
is UTC-aware.  Python compares aware datetimes with equal offsets and naive
datetimes fieldwise, and an aware datetime is never equal to a naive one, so
Python equality on the datetimes representable here is exactly structural
equality of this record. -/

structure DateTime where
  year : Nat
  month : Nat
  day : Nat
  hour : Nat
  minute : Nat
  second : Nat
  microsecond : Nat
  utc : Bool
deriving DecidableEq, Repr

/-- Gregorian leap-year test, as in Python's calendar arithmetic. -/
def isLeap (y : Nat) : Bool := (y % 4 = 0 && y % 100 != 0) || y % 400 = 0

/-- Days in a month of a given year (months outside 1..12 never arise from a
valid datetime and default to 31). -/
def daysInMonth (y m : Nat) : Nat :=
  if m = 2 then (if isLeap y then 29 else 28)
  else if m = 4 ∨ m = 6 ∨ m = 9 ∨ m = 11 then 30 else 31

/-- Field ranges of a constructible Python datetime (MINYEAR 1, MAXYEAR
9999, calendar-valid day, sub-day fields in range). -/
def DateTime.Valid (d : DateTime) : Prop :=
  1 ≤ d.year ∧ d.year ≤ 9999 ∧ 1 ≤ d.month ∧ d.month ≤ 12 ∧
  1 ≤ d.day ∧ d.day ≤ daysInMonth d.year d.month ∧
  d.hour < 24 ∧ d.minute < 60 ∧ d.second < 60 ∧ d.microsecond < 1000000

instance (d : DateTime) : Decidable d.Valid := by
  unfold DateTime.Valid
  infer_instance

/-- Normalize an overflowing day count by walking months forward; the fuel
bounds the walk and exceeds what any day count reachable here needs. -/
def rollDays : Nat → Nat → Nat → Nat → Nat × Nat × Nat
  | 0, y, m, d => (y, m, d)
  | fuel+1, y, m, d =>
    if d ≤ daysInMonth y m then (y, m, d)
    else if 12 ≤ m then rollDays fuel (y + 1) 1 (d - daysInMonth y m)
    else rollDays fuel y (m + 1) (d - daysInMonth y m)

/-- Addition of a timedelta of n minutes to a datetime, the only timedelta
arithmetic the program performs (with n set to the interval). -/
def addMinutesDT (d : DateTime) (n : Nat) : DateTime :=
  let t := d.minute + n
  let mins := t % 60
  let h := d.hour + t / 60
  let hrs := h % 24
  let dd := d.day + h / 24
  let ymd := rollDays (dd + 1) d.year d.month dd
  { d with year := ymd.1, month := ymd.2.1, day := ymd.2.2, hour := hrs, minute := mins }

/-- Embeds get_current_time_slot: round the current UTC time down to the
nearest 5-minute interval by subtracting the sub-interval remainder (the
subtracted timedelta is exactly the sub-interval part, so no field ever
borrows). -/
def get_current_time_slot (now : DateTime) : DateTime :=
  { now with minute := now.minute - now.minute % 5, second := 0, microsecond := 0 }

/-! ## Timestamp strings -/

/-- Embeds strftime with format percent-Y, dash, percent-m, dash, percent-d,
letter T, percent-H, colon, percent-M as used by create_seed: a
minute-granular zero-padded timestamp. -/
def timeslotChars (d : DateTime) : List Char :=
  pad4 d.year ++ '-' :: (pad2 d.month ++ '-' :: (pad2 d.day ++
    'T' :: (pad2 d.hour ++ ':' :: pad2 d.minute)))

/-- The string "+00:00", the UTC offset suffix of isoformat output. -/
def PLUS0000 : List Char := ['+', '0', '0', ':', '0', '0']

/-- Offset-free part of datetime.isoformat output: date, letter T, time with
seconds, and a microsecond part only when the microsecond field is nonzero
(timespec auto). -/
def isoBase (d : DateTime) : List Char :=
  pad4 d.year ++ '-' :: (pad2 d.month ++ '-' :: (pad2 d.day ++
    'T' :: (pad2 d.hour ++ ':' :: (pad2 d.minute ++ ':' :: (pad2 d.second ++
    (if d.microsecond = 0 then [] else '.' :: pad6 d.microsecond))))))

/-- Embeds datetime.isoformat: the offset-free part followed by "+00:00"
when the datetime is UTC-aware. -/
def isoformatChars (d : DateTime) : List Char :=
  isoBase d ++ (if d.utc then PLUS0000 else [])

/-- Embeds Python str.replace for a nonempty pattern: scan left to right
and replace non-overlapping occurrences (the program only ever replaces the
nonempty patterns "+00:00" and "Z").  The fuel argument makes the recursion
structural; a fuel of at least the string length never runs out because
every step consumes at least one character. -/
def replaceFuel (pat rep : List Char) : Nat → List Char → List Char
  | _, [] => []
  | 0, l => l
  | fuel+1, c :: rest =>
    if pat ≠ [] ∧ pat.isPrefixOf (c :: rest) then
      rep ++ replaceFuel pat rep fuel ((c :: rest).drop pat.length)
    else
      c :: replaceFuel pat rep fuel rest

/-- Python str.replace, supplying the length of the string as fuel. -/
def replaceList (pat rep l : List Char) : List Char :=
  replaceFuel pat rep l.length l

/-! ## Parsing timestamps back (datetime.fromisoformat)

The program re-reads only timestamps it wrote itself (after replacing a
trailing Z by "+00:00"), plus whatever a hand-edited file contains.  The
parser below models datetime.fromisoformat on the grammar
date [sep time [colon seconds [dot fraction]] [offset "+00:00"]] with
zero-padded fields and constructor-range validation, which covers every
string this development reads or writes; CPython 3.11 additionally accepts
some other ISO-8601 shapes that never occur here. -/

/-- Value of a decimal digit character, none for a non-digit. -/
def digitVal (c : Char) : Option Nat :=
  if 48 ≤ c.toNat ∧ c.toNat ≤ 57 then some (c.toNat - 48) else none

/-- Parse exactly k decimal digits, accumulating their value. -/
def parseFixed : Nat → Nat → List Char → Option (Nat × List Char)
  | 0, acc, rest => some (acc, rest)
  | _+1, _, [] => none
  | k+1, acc, c :: rest =>
    match digitVal c with
    | some d => parseFixed k (acc * 10 + d) rest
    | none => none

/-- Consume one expected character. -/
def expectChar (c : Char) : List Char → Option (List Char)
  | [] => none
  | x :: rest => if x = c then some rest else none

/-- Datetime constructor with Python's range validation. -/
def mkDT (y mo da h mi s us : Nat) (utc : Bool) : Option DateTime :=
  if 1 ≤ y ∧ y ≤ 9999 ∧ 1 ≤ mo ∧ mo ≤ 12 ∧ 1 ≤ da ∧ da ≤ daysInMonth y mo ∧
     h < 24 ∧ mi < 60 ∧ s < 60 ∧ us < 1000000 then
    some ⟨y, mo, da, h, mi, s, us, utc⟩
  else none

/-- Parse a fractional-second field of one to six digits, scaled to
microseconds. -/
def parseFrac (cs : List Char) : Option (Nat × List Char) :=
  let ds := cs.takeWhile (fun c => (digitVal c).isSome)
  if ds.length = 0 ∨ 6 < ds.length then none
  else some (ds.foldl (fun a c => a * 10 + (digitVal c).getD 0) 0 * 10 ^ (6 - ds.length),
             cs.drop ds.length)

/-- Parse the optional trailing UTC offset: end of input means naive,
"+00:00" means UTC-aware, anything else fails. -/
def parseOffset (cs : List Char) : Option Bool :=
  if cs = [] then some false
  else if cs = PLUS0000 then some true
  else none

/-- Parse everything after the date: optional separator, time, optional
seconds and fraction, optional offset. -/
def fromisoAfterDate (y mo da : Nat) (cs : List Char) : Option DateTime :=
  match cs with
  | [] => mkDT y mo da 0 0 0 0 false
  | sep :: rest =>
    if sep = 'T' ∨ sep = 't' ∨ sep = ' ' then
      match parseFixed 2 0 rest with
      | none => none
      | some (h, r1) =>
        match expectChar ':' r1 with
        | none => none
        | some r2 =>
          match parseFixed 2 0 r2 with
          | none => none
          | some (mi, r3) =>
            match r3 with
            | ':' :: r4 =>
              match parseFixed 2 0 r4 with
              | none => none
              | some (s, r5) =>
                match r5 with
                | '.' :: r6 =>
                  match parseFrac r6 with
                  | none => none
                  | some (us, r7) =>
                    match parseOffset r7 with
                    | none => none
                    | some u => mkDT y mo da h mi s us u
                | _ =>
                  match parseOffset r5 with
                  | none => none
                  | some u => mkDT y mo da h mi s 0 u
            | _ =>
              match parseOffset r3 with
              | none => none
              | some u => mkDT y mo da h mi 0 0 u
    else none

/-- Embeds datetime.fromisoformat on the subset of strings this development
reads or writes. -/
def fromisoformatChars (cs : List Char) : Option DateTime :=
  match parseFixed 4 0 cs with
  | none => none
  | some (y, r1) =>
    match expectChar '-' r1 with
    | none => none
    | some r2 =>
      match parseFixed 2 0 r2 with
      | none => none
      | some (mo, r3) =>
        match expectChar '-' r3 with
        | none => none
        | some r4 =>
          match parseFixed 2 0 r4 with
          | none => none
          | some (da, r5) => fromisoAfterDate y mo da r5

/-! ## UTF-8 and hexadecimal encodings -/

/-- UTF-8 encoding of one Unicode code point (1 to 4 bytes). -/
def utf8Char (c : Char) : List Nat :=
  let n := c.toNat
  if n < 128 then [n]
  else if n < 2048 then [192 + n / 64, 128 + n % 64]
  else if n < 65536 then [224 + n / 4096, 128 + n / 64 % 64, 128 + n % 64]
  else [240 + n / 262144, 128 + n / 4096 % 64, 128 + n / 64 % 64, 128 + n % 64]

/-- UTF-8 encoding of a character sequence, as str.encode("utf-8"). -/
def utf8Encode (cs : List Char) : List Nat := cs.flatMap utf8Char

/-- Lowercase hexadecimal digit character. -/
def hexChar (k : Nat) : Char :=
  if k < 10 then dChar k
  else if k = 10 then 'a' else if k = 11 then 'b' else if k = 12 then 'c'
  else if k = 13 then 'd' else if k = 14 then 'e' else 'f'

/-- Embeds hashlib's hexdigest: two lowercase hex characters per byte, most
significant nibble first. -/
def hexdigest (bs : List Nat) : List Char :=
  bs.flatMap (fun b => [hexChar (b / 16), hexChar (b % 16)])

/-- Value of a hexadecimal digit character (only applied to digits). -/
def hexVal (c : Char) : Nat :=
  if 97 ≤ c.toNat then c.toNat - 87 else c.toNat - 48

/-- Embeds int(s, 16) on a lowercase hexadecimal string. -/
def parseHexNat (cs : List Char) : Nat := cs.foldl (fun acc c => acc * 16 + hexVal c) 0

/-! ## SHA-256 (FIPS 180-4) over byte lists, words as naturals mod 2^32 -/

/-- Modulus of 32-bit words. -/
def UINT32 : Nat := 4294967296

/-- Right rotation of a 32-bit word. -/
def rotr32 (n w : Nat) : Nat := ((w >>> n) ||| (w <<< (32 - n))) % UINT32

/-- SHA-256 choice function (not-x is taken as xor with the all-ones
word). -/
def shaCh (x y z : Nat) : Nat := (x &&& y) ^^^ ((x ^^^ 4294967295) &&& z)

/-- SHA-256 majority function. -/
def shaMaj (x y z : Nat) : Nat := (x &&& y) ^^^ (x &&& z) ^^^ (y &&& z)

/-- SHA-256 big Sigma-0. -/
def bigSigma0 (w : Nat) : Nat := rotr32 2 w ^^^ rotr32 13 w ^^^ rotr32 22 w

/-- SHA-256 big Sigma-1. -/
def bigSigma1 (w : Nat) : Nat := rotr32 6 w ^^^ rotr32 11 w ^^^ rotr32 25 w

/-- SHA-256 small sigma-0. -/
def smallSigma0 (w : Nat) : Nat := rotr32 7 w ^^^ rotr32 18 w ^^^ (w >>> 3)

/-- SHA-256 small sigma-1. -/
def smallSigma1 (w : Nat) : Nat := rotr32 17 w ^^^ rotr32 19 w ^^^ (w >>> 10)

/-- The 64 SHA-256 round constants: fractional parts of the cube roots of
the first 64 primes. -/
def shaK : List Nat :=
  [1116352408, 1899447441, 3049323471, 3921009573, 961987163, 1508970993,
   2453635748, 2870763221, 3624381080, 310598401, 607225278, 1426881987,
   1925078388, 2162078206, 2614888103, 3248222580, 3835390401, 4022224774,
   264347078, 604807628, 770255983, 1249150122, 1555081692, 1996064986,
   2554220882, 2821834349, 2952996808, 3210313671, 3336571891, 3584528711,
   113926993, 338241895, 666307205, 773529912, 1294757372, 1396182291,
   1695183700, 1986661051, 2177026350, 2456956037, 2730485921, 2820302411,
   3259730800, 3345764771, 3516065817, 3600352804, 4094571909, 275423344,
   430227734, 506948616, 659060556, 883997877, 958139571, 1322822218,
   1537002063, 1747873779, 1955562222, 2024104815, 2227730452, 2361852424,
   2428436474, 2756734187, 3204031479, 3329325298]

/-- The SHA-256 initial hash value: fractional parts of the square roots of
the first 8 primes. -/
def shaH0 : List Nat :=
  [1779033703, 3144134277, 1013904242, 2773480762, 1359893119, 2600822924,
   528734635, 1541459225]

/-- SHA-256 message padding: a 0x80 byte, zeros to 56 mod 64, then the
64-bit big-endian bit length. -/
def sha256Pad (msg : List Nat) : List Nat :=
  let len := msg.length
  let zeros := (56 + 64 - (len + 1) % 64) % 64
  let bitLen := len * 8
  msg ++ 128 :: (List.replicate zeros 0 ++
    (List.range 8).map (fun i => (bitLen >>> (8 * (7 - i))) % 256))

/-- Split a byte list into 64-byte blocks. -/
def chunk64 : List Nat → List (List Nat)
  | [] => []
  | c :: rest => ((c :: rest).take 64) :: chunk64 ((c :: rest).drop 64)
termination_by l => l.length
decreasing_by
  simp only [List.length_drop, List.length_cons]
  omega

/-- Big-endian grouping of bytes into 32-bit words. -/
def bytesToWords : List Nat → List Nat
  | b0 :: b1 :: b2 :: b3 :: rest =>
    (((b0 * 256 + b1) * 256 + b2) * 256 + b3) :: bytesToWords rest
  | _ => []

/-- One message-schedule extension step on the reversed schedule prefix. -/
def scheduleStep (rws : List Nat) : List Nat :=
  (smallSigma1 (rws.getD 1 0) + rws.getD 6 0 + smallSigma0 (rws.getD 14 0)
    + rws.getD 15 0) % UINT32 :: rws

/-- The 64-word SHA-256 message schedule of one block. -/
def sha256Schedule (block : List Nat) : List Nat :=
  ((List.range 48).foldl (fun r _ => scheduleStep r) block.reverse).reverse

/-- Working variables of the SHA-256 compression loop. -/
structure ShaState where
  a : Nat
  b : Nat
  c : Nat
  d : Nat
  e : Nat
  f : Nat
  g : Nat
  h : Nat

/-- One SHA-256 compression round. -/
def shaRound (st : ShaState) (kw : Nat × Nat) : ShaState :=
  let t1 := (st.h + bigSigma1 st.e + shaCh st.e st.f st.g + kw.1 + kw.2) % UINT32
  let t2 := (bigSigma0 st.a + shaMaj st.a st.b st.c) % UINT32
  ⟨(t1 + t2) % UINT32, st.a, st.b, st.c, (st.d + t1) % UINT32, st.e, st.f, st.g⟩

/-- Compress one block of schedule words into the running hash. -/
def shaCompress (hs : List Nat) (block : List Nat) : List Nat :=
  let ws := sha256Schedule block
  let init : ShaState :=
    ⟨hs.getD 0 0, hs.getD 1 0, hs.getD 2 0, hs.getD 3 0,
     hs.getD 4 0, hs.getD 5 0, hs.getD 6 0, hs.getD 7 0⟩
  let fin := (shaK.zip ws).foldl shaRound init
  [(hs.getD 0 0 + fin.a) % UINT32, (hs.getD 1 0 + fin.b) % UINT32,
   (hs.getD 2 0 + fin.c) % UINT32, (hs.getD 3 0 + fin.d) % UINT32,
   (hs.getD 4 0 + fin.e) % UINT32, (hs.getD 5 0 + fin.f) % UINT32,
   (hs.getD 6 0 + fin.g) % UINT32, (hs.getD 7 0 + fin.h) % UINT32]

/-- Big-endian bytes of a 32-bit word. -/
def wordBytes (w : Nat) : List Nat :=
  [w / 16777216 % 256, w / 65536 % 256, w / 256 % 256, w % 256]

/-- SHA-256 digest of a byte list, as a list of 32 bytes. -/
def sha256 (msg : List Nat) : List Nat :=
  ((chunk64 (sha256Pad msg)).foldl (fun hs b => shaCompress hs (bytesToWords b))
    shaH0).flatMap wordBytes

/-! ## Seed derivation -/

/-- Embeds ShopGenerator._create_seed: SHA-256 of the UTF-8 bytes of the
secret key, a colon and the minute-granular timestamp string, hex-encoded
and re-read as an integer. -/
def create_seed (secret_key : String) (dt : DateTime) : Nat :=
  parseHexNat (hexdigest (sha256 (utf8Encode
    (secret_key.data ++ ':' :: timeslotChars dt))))

/-! ## The CPython Mersenne Twister (random.Random seeded with an int)

random.Random(seed) seeds MT19937 through init_by_array with the 32-bit
little-endian words of the absolute value of the seed; random() draws two
32-bit outputs and combines them into a 53-bit dyadic rational in the unit
interval.  All word arithmetic is mod 2^32. -/

/-- One state-mixing step of MT19937 init_genrand. -/
def mtGenStep (a : Array Nat) (i : Nat) : Array Nat :=
  a.push ((1812433253 * (a.get! i ^^^ (a.get! i >>> 30)) + (i + 1)) % UINT32)

/-- MT19937 init_genrand state initialization. -/
def mtInitGenrand (s : Nat) : Array Nat :=
  (List.range 623).foldl mtGenStep #[s % UINT32]

/-- One step of the first init_by_array mixing loop, folding the key in. -/
def mtMixStep1 (key : List Nat) (st : Array Nat × Nat × Nat) : Array Nat × Nat × Nat :=
  let mt := st.1
  let i := st.2.1
  let j := st.2.2
  let prev := mt.get! (i - 1)
  let v := ((mt.get! i ^^^ ((prev ^^^ (prev >>> 30)) * 1664525 % UINT32))
            + key.getD j 0 + j) % UINT32
  let mt1 := mt.set! i v
  let i1 := i + 1
  let j1 := j + 1
  let mt2 := if 624 ≤ i1 then mt1.set! 0 (mt1.get! 623) else mt1
  let i2 := if 624 ≤ i1 then 1 else i1
  let j2 := if key.length ≤ j1 then 0 else j1
  (mt2, i2, j2)

/-- One step of the second init_by_array mixing loop. -/
def mtMixStep2 (st : Array Nat × Nat) : Array Nat × Nat :=
  let mt := st.1
  let i := st.2
  let prev := mt.get! (i - 1)
  let v := ((mt.get! i ^^^ ((prev ^^^ (prev >>> 30)) * 1566083941 % UINT32))
            + (UINT32 - i)) % UINT32
  let mt1 := mt.set! i v
  let i1 := i + 1
  let mt2 := if 624 ≤ i1 then mt1.set! 0 (mt1.get! 623) else mt1
  let i2 := if 624 ≤ i1 then 1 else i1
  (mt2, i2)

/-- MT19937 init_by_array seeding. -/
def mtInitByArray (key : List Nat) : Array Nat :=
  let mt0 := mtInitGenrand 19650218
  let k := max 624 key.length
  let s1 := (List.range k).foldl (fun st _ => mtMixStep1 key st) (mt0, 1, 0)
  let s2 := (List.range 623).foldl (fun st _ => mtMixStep2 st) (s1.1, s1.2.1)
  s2.1.set! 0 2147483648

/-- The 32-bit little-endian words of the absolute value of an integer
seed, as CPython's random_seed hands them to init_by_array (a zero seed
gives the single word 0). -/
def mtSeedKey (n : Nat) : List Nat :=
  if n = 0 then [0]
  else (List.range (Nat.log2 n / 32 + 1)).map (fun i => (n >>> (32 * i)) % UINT32)

/-- Generator state: the 624-word state array and the next output index. -/
structure MTState where
  mt : Array Nat
  mti : Nat

/-- Embeds random.Random(n) for an integer n: seed through init_by_array;
the first output triggers a full state regeneration. -/
def seedMT (n : Nat) : MTState := ⟨mtInitByArray (mtSeedKey n), 624⟩

/-- One word of the MT19937 state regeneration. -/
def twistStep (cur nxt other : Nat) : Nat :=
  let y := (cur &&& 2147483648) ||| (nxt &&& 2147483647)
  other ^^^ (y >>> 1) ^^^ (if y % 2 = 1 then 2567483615 else 0)

/-- Full MT19937 state regeneration (the genrand_uint32 block update). -/
def mtTwist (mt : Array Nat) : Array Nat :=
  let a1 := (List.range 227).foldl
    (fun a kk => a.set! kk (twistStep (a.get! kk) (a.get! (kk + 1)) (a.get! (kk + 397)))) mt
  let a2 := (List.range 396).foldl
    (fun a n => a.set! (227 + n)
      (twistStep (a.get! (227 + n)) (a.get! (228 + n)) (a.get! n))) a1
  a2.set! 623 (twistStep (a2.get! 623) (a2.get! 0) (a2.get! 396))

/-- Embeds genrand_uint32: regenerate when exhausted, then output the next
tempered word. -/
def mtNext (st : MTState) : Nat × MTState :=
  let st1 : MTState := if 624 ≤ st.mti then ⟨mtTwist st.mt, 0⟩ else st
  let y0 := st1.mt.get! st1.mti
  let y1 := y0 ^^^ (y0 >>> 11)
  let y2 := y1 ^^^ ((y1 <<< 7) &&& 2636928640)
  let y3 := y2 ^^^ ((y2 <<< 15) &&& 4022730752)
  let y4 := y3 ^^^ (y3 >>> 18)
  (y4, ⟨st1.mt, st1.mti + 1⟩)

/-- Embeds random.random: two tempered words make a 53-bit draw in the unit
interval; the double arithmetic is exact and is represented as a rational. -/
def mtRandom (st : MTState) : ℚ × MTState :=
  let p1 := mtNext st
  let p2 := mtNext p1.2
  ((((p1.1 >>> 5) * 67108864 + (p2.1 >>> 6) : ℚ) / 9007199254740992), p2.2)

/-! ## random.choices with weights

Weights are carried exactly as rationals; the Python floats read from the
weight-table CSV, their running sums and the comparisons against the unit
draws are modelled by exact rational arithmetic (the finiteness check on
the total is then always satisfied). -/

/-- Embeds itertools.accumulate: running sums. -/
def accumulateFrom (acc : ℚ) : List ℚ → List ℚ
  | [] => [acc]
  | x :: rest => acc :: accumulateFrom (acc + x) rest

/-- Running sums of a list (empty for the empty list). -/
def accumulate : List ℚ → List ℚ
  | [] => []
  | x :: rest => accumulateFrom x rest

/-- Embeds bisect.bisect (bisect_right) with explicit lo and hi bounds.
The fuel makes the recursion structural; a fuel of the width of the search
window never runs out because the window strictly shrinks each step. -/
def bisectFuel (a : List ℚ) (x : ℚ) : Nat → Nat → Nat → Nat
  | 0, lo, _ => lo
  | fuel+1, lo, hi =>
    if lo < hi then
      let mid := (lo + hi) / 2
      if x < a.getD mid 0 then bisectFuel a x fuel lo mid
      else bisectFuel a x fuel (mid + 1) hi
    else lo

/-- bisect.bisect, supplying the window width as fuel. -/
def bisectRight (a : List ℚ) (x : ℚ) (lo hi : Nat) : Nat :=
  bisectFuel a x (hi - lo) lo hi

/-- The draw loop of random.choices: for each of k draws, scale a unit draw
by the weight total and bisect the cumulative weights capped at the last
index. -/
def drawLoop (population : List String) (cum : List ℚ) (total : ℚ) (hi : Nat) :
    Nat → MTState → List String × MTState
  | 0, st => ([], st)
  | k+1, st =>
    let p := mtRandom st
    let idx := bisectRight cum (p.1 * total) 0 hi
    let rest := drawLoop population cum total hi k p.2
    (population.getD idx "" :: rest.1, rest.2)

/-- Embeds random.choices(population, weights, k) as called by the
generator, carrying the weight arithmetic in exact rationals: accumulate
the weights, validate, then draw.  The errors are the ValueError on a
length mismatch, the IndexError a length-zero call reaches, and the
ValueError on a non-positive total; an individual non-positive weight
alone raises nothing.  In CPython the weights are doubles, the running
sums round at every addition and a separate check rejects a non-finite
total (which exact rationals cannot produce); pyChoicesF below is the
bit-exact binary64 model of the same source function, and the claim about
the sampler's failure condition is settled against it.  This rational
reading is used by the rotation-level claims, whose draws and failure
branches coincide with the float semantics on the inputs they quantify
over or are hypothesized rather than derived. -/
def pyChoices (st : MTState) (population : List String) (weights : List ℚ)
    (k : Nat) : Except String (List String × MTState) :=
  let n := population.length
  let cum := accumulate weights
  if cum.length ≠ n then
    .error "ValueError: The number of weights does not match the population"
  else if n = 0 then
    .error "IndexError: list index out of range"
  else
    let total := cum.getLastD 0
    if total ≤ 0 then .error "ValueError: Total of weights must be greater than zero"
    else .ok (drawLoop population cum total (n - 1) k st)

/-! ## IEEE-754 binary64 arithmetic, exactly

CPython carries the weights as doubles.  A finite double is an exact
dyadic rational, so binary64 arithmetic embeds exactly: a float value is a
signed integer significand with a power-of-two scale (the functions below
are applied only to values whose rounding is the identity), an infinity,
or NaN, and each operation rounds the exact result to 53 significand
bits, ties to even, overflowing to infinity (the values match CPython's
float.as_integer_ratio on every reference point checked: 1e308, 0.1, 0.2,
1e-320, 2^53+1, 2^53+3, the tie 1e16+1, the overflow 1e308+1e308 and the
cancellation 1e16+1-1e16).  Signed zero is collapsed to one zero, which
no comparison the sampler makes can distinguish. -/

inductive PyFloat where
  | finite (m : ℤ) (e : ℤ)
  | inf
  | neginf
  | nan
deriving DecidableEq, Repr

/-- Floor of the base-2 logarithm, by fuel-structural halving (the fuel
never runs out at its initial value n). -/
def natLog2F : Nat → Nat → Nat
  | 0, _ => 0
  | fuel+1, n => if 2 ≤ n then natLog2F fuel (n / 2) + 1 else 0

/-- Floor of the base-2 logarithm of a positive natural number. -/
def natLog2 (n : Nat) : Nat := natLog2F n n

/-- Round the dyadic value M times 2 to the e to the nearest binary64
value, ties to even: 53 significand bits for normal values, a fixed
quantum of 2 to the -1074 below the normal range (subnormals, underflowing
to zero), and overflow to infinity at 2 to the 1024. -/
def roundDy (M : ℤ) (e : ℤ) : PyFloat :=
  if M = 0 then .finite 0 0
  else
    let a : ℕ := M.natAbs
    let E : ℤ := (natLog2 a : ℤ) + e
    if 1024 ≤ E then (if M < 0 then .neginf else .inf)
    else
      let g : ℤ := if E - 52 ≤ -1074 then -1074 else E - 52
      let nr : ℕ :=
        if g ≤ e then a * 2 ^ (e - g).toNat
        else
          let k := (g - e).toNat
          let n0 := a / 2 ^ k
          let rem := a % 2 ^ k
          let half := 2 ^ (k - 1)
          if rem < half then n0
          else if half < rem then n0 + 1
          else if n0 % 2 = 0 then n0 else n0 + 1
      if 2 ^ (1024 - g).toNat ≤ nr then (if M < 0 then .neginf else .inf)
      else .finite (if M < 0 then -(nr : ℤ) else (nr : ℤ)) g

/-- Binary64 addition: correctly rounded exact sum on finite values, the
IEEE special-value rules otherwise. -/
def fadd : PyFloat → PyFloat → PyFloat
  | .nan, _ => .nan
  | _, .nan => .nan
  | .inf, .neginf => .nan
  | .neginf, .inf => .nan
  | .inf, _ => .inf
  | _, .inf => .inf
  | .neginf, _ => .neginf
  | _, .neginf => .neginf
  | .finite m1 e1, .finite m2 e2 =>
    if e1 ≤ e2 then roundDy (m1 + m2 * (2 ^ (e2 - e1).toNat : ℕ)) e1
    else roundDy (m1 * (2 ^ (e1 - e2).toNat : ℕ) + m2) e2

/-- Binary64 multiplication: correctly rounded exact product on finite
values, the IEEE special-value rules otherwise. -/
def fmul : PyFloat → PyFloat → PyFloat
  | .nan, _ => .nan
  | _, .nan => .nan
  | .inf, .inf => .inf
  | .inf, .neginf => .neginf
  | .neginf, .inf => .neginf
  | .neginf, .neginf => .inf
  | .inf, .finite m _ => if m = 0 then .nan else if m < 0 then .neginf else .inf
  | .finite m _, .inf => if m = 0 then .nan else if m < 0 then .neginf else .inf
  | .neginf, .finite m _ => if m = 0 then .nan else if m < 0 then .inf else .neginf
  | .finite m _, .neginf => if m = 0 then .nan else if m < 0 then .inf else .neginf
  | .finite m1 e1, .finite m2 e2 => roundDy (m1 * m2) (e1 + e2)

/-- The Python comparison total <= 0.0: false for NaN, true for negative
infinity, the sign of the significand otherwise. -/
def PyFloat.leZero : PyFloat → Bool
  | .finite m _ => decide (m ≤ 0)
  | .neginf => true
  | _ => false

/-- math.isfinite. -/
def PyFloat.isfinite : PyFloat → Bool
  | .finite _ _ => true
  | _ => false

/-- The Python comparison x < y on floats: false whenever NaN is involved,
the dyadic value order otherwise. -/
def pfLt : PyFloat → PyFloat → Bool
  | .nan, _ => false
  | _, .nan => false
  | .neginf, .neginf => false
  | .neginf, _ => true
  | _, .neginf => false
  | .inf, _ => false
  | .finite _ _, .inf => true
  | .finite m1 e1, .finite m2 e2 =>
    if e1 ≤ e2 then decide (m1 < m2 * (2 ^ (e2 - e1).toNat : ℕ))
    else decide (m1 * (2 ^ (e1 - e2).toNat : ℕ) < m2)

/-- itertools.accumulate over doubles: every running sum rounds. -/
def accumulateFromF (acc : PyFloat) : List PyFloat → List PyFloat
  | [] => [acc]
  | x :: rest => acc :: accumulateFromF (fadd acc x) rest

/-- Running float sums of a float list (empty for the empty list). -/
def floatAccumulate : List PyFloat → List PyFloat
  | [] => []
  | x :: rest => accumulateFromF x rest

/-- The total random.choices validates: the last running sum plus 0.0. -/
def floatTotal (weights : List PyFloat) : PyFloat :=
  fadd ((floatAccumulate weights).getLastD (.finite 0 0)) (.finite 0 0)

/-- bisect.bisect over a float list, fuel-structural as bisectFuel. -/
def bisectFuelF (a : List PyFloat) (x : PyFloat) : Nat → Nat → Nat → Nat
  | 0, lo, _ => lo
  | fuel+1, lo, hi =>
    if lo < hi then
      let mid := (lo + hi) / 2
      if pfLt x (a.getD mid (.finite 0 0)) then bisectFuelF a x fuel lo mid
      else bisectFuelF a x fuel (mid + 1) hi
    else lo

/-- bisect.bisect over a float list, supplying the window width as fuel. -/
def bisectRightF (a : List PyFloat) (x : PyFloat) (lo hi : Nat) : Nat :=
  bisectFuelF a x (hi - lo) lo hi

/-- random.random as the exact double it returns: a 53-bit significand
scaled by 2 to the -53 (the same draw mtRandom yields as a rational). -/
def mtRandomF (st : MTState) : PyFloat × MTState :=
  let p1 := mtNext st
  let p2 := mtNext p1.2
  (.finite (((p1.1 >>> 5) * 67108864 + (p2.1 >>> 6) : ℕ) : ℤ) (-53), p2.2)

/-- The draw loop of random.choices over float cumulative weights: each
unit draw is scaled by the float total with a rounding binary64 multiply
and bisected against the float running sums. -/
def drawLoopF (population : List String) (cum : List PyFloat) (total : PyFloat)
    (hi : Nat) : Nat → MTState → List String × MTState
  | 0, st => ([], st)
  | k+1, st =>
    let p := mtRandomF st
    let idx := bisectRightF cum (fmul p.1 total) 0 hi
    let rest := drawLoopF population cum total hi k p.2
    (population.getD idx "" :: rest.1, rest.2)

/-- Embeds random.choices(population, weights, k) bit-exactly: the weights
are doubles, the running sums round at every addition, the total is the
last running sum plus 0.0, and, in CPython's order, a non-positive total
raises the positivity ValueError and a non-finite total (overflow to
infinity, or NaN from opposite infinities) raises the finiteness
ValueError; only then are the draws made against the float running sums. -/
def pyChoicesF (st : MTState) (population : List String) (weights : List PyFloat)
    (k : Nat) : Except String (List String × MTState) :=
  let n := population.length
  let cum := floatAccumulate weights
  if cum.length ≠ n then
    .error "ValueError: The number of weights does not match the population"
  else if n = 0 then
    .error "IndexError: list index out of range"
  else
    let total := fadd (cum.getLastD (.finite 0 0)) (.finite 0 0)
    if total.leZero then
      .error "ValueError: Total of weights must be greater than zero"
    else if total.isfinite = false then
      .error "ValueError: Total of weights must be finite"
    else .ok (drawLoopF population cum total (n - 1) k st)

/-! ## Eggs and the shop generator -/

/-- Embeds the Egg dataclass: a name and a pull chance (the chance float is
carried exactly as a rational). -/
structure Egg where
  name : String
  chance : ℚ
deriving DecidableEq, Repr

/-- Configured shop size. -/
def SHOP_SIZE : Nat := 3

/-- Configured rotation interval in minutes. -/
def TIME_INTERVAL_MINUTES : Nat := 5

/-- Embeds ShopGenerator._generate_shop_inventory: seed a fresh generator
from the secret key and timestamp and draw SHOP_SIZE weighted names. -/
def generate_shop_inventory (secret_key : String) (eggs : List Egg)
    (seed_dt : DateTime) : Except String (List String) :=
  match pyChoices (seedMT (create_seed secret_key seed_dt))
      (eggs.map Egg.name) (eggs.map Egg.chance) SHOP_SIZE with
  | .error e => .error e
  | .ok out => .ok out.1

/-! ## JSON values and the persisted shop state

json.load yields nested dicts, lists, strings, numbers, booleans and null;
a dict is a key-value list whose last binding for a key wins (as Python
keeps the last duplicate key).  The program itself only ever writes an
object of one string and two string arrays. -/

inductive Json where
  | null
  | bool (b : Bool)
  | num (n : Int)
  | str (s : String)
  | arr (items : List Json)
  | obj (fields : List (String × Json))

/-- Dictionary lookup with Python's last-duplicate-wins semantics. -/
def lookupLast (fields : List (String × Json)) (key : String) : Option Json :=
  (fields.reverse.find? (fun p => p.1 == key)).map Prod.snd

/-- Embeds the ShopState dataclass.  The shop fields hold whatever JSON
value the constructor received: the generator always supplies string
arrays, but from_dict copies the file's values over unchecked. -/
structure ShopState where
  generated_at : DateTime
  current_shop : Json
  next_shop : Json

/-- Embeds ShopState.to_dict: serialize generated_at with isoformat and
replace the "+00:00" suffix by "Z"; the shop values pass through. -/
def ShopState.to_dict (s : ShopState) : Json :=
  .obj [("generated_at",
          .str (String.mk (replaceList PLUS0000 ['Z'] (isoformatChars s.generated_at)))),
        ("current_shop", s.current_shop),
        ("next_shop", s.next_shop)]

/-- Embeds ShopState.from_dict.  A missing key, a non-dict value, or an
unparsable timestamp string is caught (KeyError, TypeError, ValueError) and
yields none; a generated_at value that is not a string makes the attribute
access str.replace raise an uncaught AttributeError, which escapes from_dict
and is surfaced in the error component. -/
def ShopState.from_dict (j : Json) : Except String (Option ShopState) :=
  match j with
  | .obj fields =>
    match lookupLast fields "generated_at" with
    | none => .ok none
    | some (.str s) =>
      match fromisoformatChars (replaceList ['Z'] PLUS0000 s.data) with
      | none => .ok none
      | some dt =>
        match lookupLast fields "current_shop", lookupLast fields "next_shop" with
        | some cs, some ns => .ok (some ⟨dt, cs, ns⟩)
        | _, _ => .ok none
    | some _ => .error "AttributeError: object has no attribute replace"
  | _ => .ok none

/-- Embeds generate_shops_for_time: draw the shop of the given slot and of
the following slot and package them with the slot as generation time. -/
def generate_shops_for_time (secret_key : String) (eggs : List Egg)
    (current_time_slot : DateTime) : Except String ShopState :=
  match generate_shop_inventory secret_key eggs current_time_slot with
  | .error e => .error e
  | .ok current_shop =>
    match generate_shop_inventory secret_key eggs
        (addMinutesDT current_time_slot TIME_INTERVAL_MINUTES) with
    | .error e => .error e
    | .ok next_shop =>
      .ok ⟨current_time_slot, .arr (current_shop.map Json.str),
           .arr (next_shop.map Json.str)⟩

/-! ## The run of main

The output file's prior condition is an explicit input: absent, present but
not JSON (json.load raises an uncaught JSONDecodeError), or present with a
parsed JSON value.  A run either crashes with an uncaught exception, having
written nothing, or writes the serialized final state. -/

inductive StateFile where
  | absent
  | unparsable
  | json (j : Json)

/-- Loading the prior state as main does: nothing if the file is absent, an
uncaught decode error if it is not JSON, otherwise from_dict. -/
def loadPrior (file : StateFile) : Except String (Option ShopState) :=
  match file with
  | .absent => .ok none
  | .unparsable => .error "json.JSONDecodeError: Expecting value"
  | .json j => ShopState.from_dict j

/-- Outcome of one invocation of main after the egg table is loaded. -/
inductive RunResult where
  | crash (msg : String)
  | wrote (content : Json) (state : ShopState)

/-- Embeds main from the construction of ShopGenerator onward: reject an
empty egg table, compute the current slot, load the prior state, reuse it
verbatim when its generation time equals the current slot and regenerate
both shops otherwise, then write the serialized final state.  The boundary
wait between computing and writing only passes time and is not part of the
state transformation. -/
def runMain (secret_key : String) (eggs : List Egg) (file : StateFile)
    (now : DateTime) : RunResult :=
  if eggs = [] then .crash "ValueError: Egg list cannot be empty."
  else
    let current_time_slot := get_current_time_slot now
    match loadPrior file with
    | .error e => .crash e
    | .ok existing =>
      let final : Except String ShopState :=
        match existing with
        | some s =>
          if s.generated_at = current_time_slot then .ok s
          else generate_shops_for_time secret_key eggs current_time_slot
        | none => generate_shops_for_time secret_key eggs current_time_slot
      match final with
      | .error e => .crash e
      | .ok s => .wrote s.to_dict s

/-! ## Serializing the written file (json.dump with indent 2) -/

/-- Four hex digits of a UTF-16 code unit. -/
def uHex4 (n : Nat) : List Char :=
  [hexChar (n / 4096 % 16), hexChar (n / 256 % 16), hexChar (n / 16 % 16), hexChar (n % 16)]

/-- JSON string escaping with the json.dump default ensure_ascii: quote and
backslash escaped, the named control escapes, and every other character
outside printable ASCII as a u-escape (surrogate pairs beyond the basic
plane). -/
def escapeChar (c : Char) : List Char :=
  if c = '"' then ['\\', '"']
  else if c = '\\' then ['\\', '\\']
  else if c = '\n' then ['\\', 'n']
  else if c = '\t' then ['\\', 't']
  else if c = '\r' then ['\\', 'r']
  else if c.toNat = 8 then ['\\', 'b']
  else if c.toNat = 12 then ['\\', 'f']
  else if c.toNat < 32 ∨ 126 < c.toNat then
    if 65536 ≤ c.toNat then
      let v := c.toNat - 65536
      '\\' :: 'u' :: (uHex4 (55296 + v / 1024) ++ '\\' :: 'u' :: uHex4 (56320 + v % 1024))
    else '\\' :: 'u' :: uHex4 c.toNat
  else [c]

/-- A JSON string literal with escaping. -/
def dumpStrChars (s : String) : List Char :=
  '"' :: (s.data.flatMap escapeChar ++ ['"'])

/-- Opening brace character. -/
def lbrace : Char := Char.ofNat 123

/-- Closing brace character. -/
def rbrace : Char := Char.ofNat 125

mutual

/-- Serialization of one JSON value at an indentation level, matching
json.dump with indent 2 (containers open with a newline, indent their items
two deeper, and close on a fresh line at their own level; empty containers
stay on one line). -/
def dumpJson : Nat → Json → List Char
  | _, .null => ['n', 'u', 'l', 'l']
  | _, .bool true => ['t', 'r', 'u', 'e']
  | _, .bool false => ['f', 'a', 'l', 's', 'e']
  | _, .num n => (toString n).data
  | _, .str s => dumpStrChars s
  | _, .arr [] => ['[', ']']
  | lvl, .arr (x :: xs) =>
    '[' :: '\n' :: (dumpItems (lvl + 2) x xs ++ '\n' :: (List.replicate lvl ' ' ++ [']']))
  | _, .obj [] => [lbrace, rbrace]
  | lvl, .obj (f :: fs) =>
    lbrace :: '\n' :: (dumpFields (lvl + 2) f fs ++ '\n' :: (List.replicate lvl ' ' ++ [rbrace]))
termination_by lvl j => sizeOf j

/-- Comma-and-newline separated array items, each indented. -/
def dumpItems : Nat → Json → List Json → List Char
  | lvl, x, [] => List.replicate lvl ' ' ++ dumpJson lvl x
  | lvl, x, y :: ys =>
    List.replicate lvl ' ' ++ (dumpJson lvl x ++ ',' :: '\n' :: dumpItems lvl y ys)
termination_by lvl x xs => 1 + sizeOf x + sizeOf xs

/-- Comma-and-newline separated object entries, each indented, with the
key-colon-space separator. -/
def dumpFields : Nat → (String × Json) → List (String × Json) → List Char
  | lvl, (k, v), [] => List.replicate lvl ' ' ++ (dumpStrChars k ++ ':' :: ' ' :: dumpJson lvl v)
  | lvl, (k, v), g :: gs =>
    List.replicate lvl ' ' ++ (dumpStrChars k ++ ':' :: ' ' :: dumpJson lvl v)
      ++ ',' :: '\n' :: dumpFields lvl g gs
termination_by lvl f fs => 1 + sizeOf f + sizeOf fs

end

/-- Embeds json.dump(final_state.to_dict(), f, indent=2) as the full text
written to the output file. -/
def jsonDumpIndent2 (j : Json) : String := String.mk (dumpJson 0 j)

/-- Observable contents of the output file around the write in main, in
order: the prior content (none when no file existed), the empty content
right after open in mode w truncates the file in place, and the fully
written serialization.  There is no temporary file and no rename. -/
def saveObservable (prior : Option String) (s : ShopState) : List (Option String) :=
  [prior, some "", some (jsonDumpIndent2 s.to_dict)]

/-- Atomicity in the sense of the specification: every content observable
around the write is the prior content or the complete new content. -/
def atomicReplace (prior : Option String) (s : ShopState) : Prop :=
  ∀ c ∈ saveObservable prior s, c = prior ∨ c = some (jsonDumpIndent2 s.to_dict)

/-! ## The seed derivation as the specification words it -/

/-- A field rendered zero-padded to a fixed width: the decimal digits of
the value from the most significant position of the field down. -/
def padLeftZeros (w n : Nat) : List Char :=
  (List.range w).map (fun i => dChar (n / 10 ^ (w - 1 - i) % 10))

/-- Follows the spec's words (section 4.1): the slot as a minute-granular
timestamp string YYYY-MM-DDTHH:MM, UTC, zero-padded fields, no timezone
suffix and no seconds. -/
def specSlotChars (slot : DateTime) : List Char :=
  padLeftZeros 4 slot.year ++ '-' :: (padLeftZeros 2 slot.month ++ '-' ::
    (padLeftZeros 2 slot.day ++ 'T' :: (padLeftZeros 2 slot.hour ++ ':' ::
      padLeftZeros 2 slot.minute)))

/-- A byte sequence read as a big-endian unsigned integer. -/
def beBytesToNat (bs : List Nat) : Nat := bs.foldl (fun acc b => acc * 256 + b) 0

/-- Follows the spec's words (section 4.1): concatenate the secret key, a
colon and the slot string, take the SHA-256 digest of the UTF-8 bytes and
interpret it as a big-endian unsigned integer. -/
def specDeriveSeed (secretKey : String) (slot : DateTime) : Nat :=
  beBytesToNat (sha256 (utf8Encode (secretKey.data ++ ':' :: specSlotChars slot)))

/-! ## Lemmas: digits, padded fields and parsing -/

theorem digitVal_dChar : ∀ k < 10, digitVal (dChar k) = some k := by decide

theorem digitVal_natDigitChar (n : Nat) : digitVal (natDigitChar n) = some (n % 10) := by
  have h : n % 10 < 10 := Nat.mod_lt _ (by omega)
  exact digitVal_dChar _ h

theorem parseFixed_pad2 (n : Nat) (h : n < 100) (r : List Char) :
    parseFixed 2 0 (pad2 n ++ r) = some (n, r) := by
  have h10 : n / 10 % 10 = n / 10 := by omega
  simp [pad2, parseFixed, digitVal_natDigitChar, h10]
  omega

theorem parseFixed_pad4 (n : Nat) (h : n < 10000) (r : List Char) :
    parseFixed 4 0 (pad4 n ++ r) = some (n, r) := by
  have h1 : n / 1000 % 10 = n / 1000 := by omega
  simp [pad4, parseFixed, digitVal_natDigitChar, h1]
  omega

theorem mem_pad2 {c : Char} {n : Nat} (h : c ∈ pad2 n) : ∃ k, k < 10 ∧ c = dChar k := by
  simp [pad2, natDigitChar] at h
  rcases h with h | h <;> exact ⟨_, Nat.mod_lt _ (by omega), h⟩

theorem mem_pad4 {c : Char} {n : Nat} (h : c ∈ pad4 n) : ∃ k, k < 10 ∧ c = dChar k := by
  simp [pad4, natDigitChar] at h
  rcases h with h | h | h | h <;> exact ⟨_, Nat.mod_lt _ (by omega), h⟩

theorem dChar_not_special : ∀ k < 10, dChar k ≠ '+' ∧ dChar k ≠ 'Z' ∧ dChar k ≠ '.' := by
  decide

/-- Character classification of the offset-free isoformat text of a
microsecond-free datetime: date and time separators and decimal digits
only. -/
theorem mem_isoBase {c : Char} {d : DateTime} (hus : d.microsecond = 0)
    (h : c ∈ isoBase d) :
    c = '-' ∨ c = 'T' ∨ c = ':' ∨ ∃ k, k < 10 ∧ c = dChar k := by
  simp only [isoBase, hus, if_pos, List.append_nil, List.mem_append, List.mem_cons] at h
  rcases h with h | h | h | h | h | h | h | h | h | h | h
  · exact Or.inr (Or.inr (Or.inr (mem_pad4 h)))
  · exact Or.inl h
  · exact Or.inr (Or.inr (Or.inr (mem_pad2 h)))
  · exact Or.inl h
  · exact Or.inr (Or.inr (Or.inr (mem_pad2 h)))
  · exact Or.inr (Or.inl h)
  · exact Or.inr (Or.inr (Or.inr (mem_pad2 h)))
  · exact Or.inr (Or.inr (Or.inl h))
  · exact Or.inr (Or.inr (Or.inr (mem_pad2 h)))
  · exact Or.inr (Or.inr (Or.inl h))
  · exact Or.inr (Or.inr (Or.inr (mem_pad2 h)))

theorem plus_not_mem_isoBase {d : DateTime} (hus : d.microsecond = 0) :
    '+' ∉ isoBase d := by
  intro h
  rcases mem_isoBase hus h with h | h | h | ⟨k, hk, hc⟩ <;> first
    | exact absurd h (by decide)
    | exact absurd hc.symm (dChar_not_special k hk).1

theorem zee_not_mem_isoBase {d : DateTime} (hus : d.microsecond = 0) :
    'Z' ∉ isoBase d := by
  intro h
  rcases mem_isoBase hus h with h | h | h | ⟨k, hk, hc⟩ <;> first
    | exact absurd h (by decide)
    | exact absurd hc.symm (dChar_not_special k hk).2.1

theorem dot_not_mem_isoBase {d : DateTime} (hus : d.microsecond = 0) :
    '.' ∉ isoBase d := by
  intro h
  rcases mem_isoBase hus h with h | h | h | ⟨k, hk, hc⟩ <;> first
    | exact absurd h (by decide)
    | exact absurd hc.symm (dChar_not_special k hk).2.2

/-! ## Lemmas: str.replace on the strings the program builds -/

theorem replaceFuel_not_mem (p0 : Char) (pr rep : List Char) :
    ∀ fuel l, p0 ∉ l → replaceFuel (p0 :: pr) rep fuel l = l := by
  intro fuel
  induction fuel with
  | zero => intro l _; cases l <;> rfl
  | succ n ih =>
    intro l h
    cases l with
    | nil => rfl
    | cons c rest =>
      have hc : p0 ≠ c := fun he => h (he ▸ List.mem_cons_self c rest)
      have hrest : p0 ∉ rest := fun he => h (List.mem_cons_of_mem c he)
      rw [replaceFuel]
      rw [if_neg]
      · rw [ih rest hrest]
      · simp [List.isPrefixOf, hc]

theorem replaceFuel_nil (pat rep : List Char) (fuel : Nat) :
    replaceFuel pat rep fuel [] = [] := by
  cases fuel <;> rfl

theorem replaceFuel_suffix (p0 : Char) (pr rep : List Char) :
    ∀ fuel l, p0 ∉ l → l.length + 1 ≤ fuel →
      replaceFuel (p0 :: pr) rep fuel (l ++ p0 :: pr) = l ++ rep := by
  intro fuel
  induction fuel with
  | zero => intro l _ hf; omega
  | succ n ih =>
    intro l h hf
    cases l with
    | nil =>
      simp only [List.nil_append]
      rw [replaceFuel]
      rw [if_pos ⟨by simp, by simp [List.isPrefixOf_iff_prefix]⟩]
      simp [replaceFuel_nil]
    | cons c rest =>
      have hc : p0 ≠ c := fun he => h (he ▸ List.mem_cons_self c rest)
      have hrest : p0 ∉ rest := fun he => h (List.mem_cons_of_mem c he)
      simp only [List.cons_append]
      rw [replaceFuel]
      rw [if_neg]
      · rw [ih rest hrest (by simpa using Nat.le_of_succ_le_succ hf)]
      · simp [List.isPrefixOf, hc]

theorem replaceList_not_mem {p0 : Char} {pr rep l : List Char} (h : p0 ∉ l) :
    replaceList (p0 :: pr) rep l = l :=
  replaceFuel_not_mem p0 pr rep l.length l h

theorem replaceList_suffix {p0 : Char} {pr rep l : List Char} (h : p0 ∉ l) :
    replaceList (p0 :: pr) rep (l ++ p0 :: pr) = l ++ rep := by
  rw [replaceList]
  exact replaceFuel_suffix p0 pr rep (l ++ p0 :: pr).length l h (by simp)

/-! ## Lemmas: parsing back what isoformat produced -/

theorem daysInMonth_le (y m : Nat) : daysInMonth y m ≤ 31 := by
  unfold daysInMonth
  split_ifs <;> simp

theorem daysInMonth_pos (y m : Nat) : 1 ≤ daysInMonth y m := by
  unfold daysInMonth
  split_ifs <;> simp

theorem fromiso_of_padded (y mo da h mi s : Nat)
    (hy1 : 1 ≤ y) (hy2 : y ≤ 9999) (hmo1 : 1 ≤ mo) (hmo2 : mo ≤ 12)
    (hda1 : 1 ≤ da) (hda2 : da ≤ daysInMonth y mo)
    (hh : h < 24) (hmi : mi < 60) (hs : s < 60) :
    fromisoformatChars (pad4 y ++ '-' :: (pad2 mo ++ '-' :: (pad2 da ++
      'T' :: (pad2 h ++ ':' :: (pad2 mi ++ ':' :: (pad2 s ++ PLUS0000)))))) =
      some ⟨y, mo, da, h, mi, s, 0, true⟩ := by
  have h4 := parseFixed_pad4 y (by omega)
  have hmo' := parseFixed_pad2 mo (by omega)
  have hda' := parseFixed_pad2 da (by have := daysInMonth_le y mo; omega)
  have hh' := parseFixed_pad2 h (by omega)
  have hmi' := parseFixed_pad2 mi (by omega)
  have hs' := parseFixed_pad2 s (by omega)
  simp [fromisoformatChars, fromisoAfterDate, h4, hmo', hda', hh', hmi', hs',
    expectChar, PLUS0000, parseOffset, mkDT, hy1, hy2, hmo1, hmo2, hda1, hda2,
    hh, hmi, hs]

theorem lookupLast_generated_at (v1 v2 v3 : Json) :
    lookupLast [("generated_at", v1), ("current_shop", v2), ("next_shop", v3)]
      "generated_at" = some v1 := rfl

theorem lookupLast_current_shop (v1 v2 v3 : Json) :
    lookupLast [("generated_at", v1), ("current_shop", v2), ("next_shop", v3)]
      "current_shop" = some v2 := rfl

theorem lookupLast_next_shop (v1 v2 v3 : Json) :
    lookupLast [("generated_at", v1), ("current_shop", v2), ("next_shop", v3)]
      "next_shop" = some v3 := rfl

/-- Serializing a state and deserializing the result restores the state
exactly, for any state whose generation time is a constructible UTC-aware
datetime with zero microseconds (every state the program builds is one). -/
theorem from_dict_to_dict (st : ShopState) (hv : st.generated_at.Valid)
    (hu : st.generated_at.utc = true) (hus : st.generated_at.microsecond = 0) :
    ShopState.from_dict st.to_dict = .ok (some st) := by
  obtain ⟨d, cs, ns⟩ := st
  simp only at hv hu hus
  obtain ⟨hy1, hy2, hmo1, hmo2, hda1, hda2, hh, hmi, hs, _⟩ := hv
  have hiso : isoformatChars d = isoBase d ++ PLUS0000 := by
    simp [isoformatChars, hu]
  have e1 : replaceList PLUS0000 ['Z'] (isoBase d ++ PLUS0000) = isoBase d ++ ['Z'] := by
    have := @replaceList_suffix '+' ['0', '0', ':', '0', '0'] ['Z'] (isoBase d)
      (plus_not_mem_isoBase hus)
    simpa [PLUS0000] using this
  have e2 : replaceList ['Z'] PLUS0000 (isoBase d ++ ['Z']) = isoBase d ++ PLUS0000 :=
    @replaceList_suffix 'Z' [] PLUS0000 (isoBase d) (zee_not_mem_isoBase hus)
  have hbase : isoBase d ++ PLUS0000 = pad4 d.year ++ '-' :: (pad2 d.month ++ '-' ::
      (pad2 d.day ++ 'T' :: (pad2 d.hour ++ ':' :: (pad2 d.minute ++ ':' ::
        (pad2 d.second ++ PLUS0000))))) := by
    simp [isoBase, hus]
  have hparse := fromiso_of_padded d.year d.month d.day d.hour d.minute d.second
    hy1 hy2 hmo1 hmo2 hda1 hda2 hh hmi hs
  simp only [ShopState.to_dict, ShopState.from_dict, lookupLast_generated_at,
    lookupLast_current_shop, lookupLast_next_shop, hiso, e1, String.data]
  rw [e2, hbase, hparse]
  obtain ⟨y, mo, da, h, mi, s, us, u⟩ := d
  simp only at hu hus
  subst hu hus
  rfl

/-! ## Lemmas: time slots and minute addition -/

theorem slot_second (now : DateTime) : (get_current_time_slot now).second = 0 := rfl

theorem slot_microsecond (now : DateTime) : (get_current_time_slot now).microsecond = 0 := rfl

theorem slot_utc (now : DateTime) : (get_current_time_slot now).utc = now.utc := rfl

theorem slot_minute_mod (now : DateTime) :
    (get_current_time_slot now).minute % TIME_INTERVAL_MINUTES = 0 := by
  simp [get_current_time_slot, TIME_INTERVAL_MINUTES]
  omega

theorem slot_valid (now : DateTime) (h : now.Valid) : (get_current_time_slot now).Valid := by
  obtain ⟨h1, h2, h3, h4, h5, h6, h7, h8, h9, h10⟩ := h
  exact ⟨h1, h2, h3, h4, h5, h6, h7, by simp [get_current_time_slot]; omega,
    by simp [get_current_time_slot], by simp [get_current_time_slot]⟩

theorem rollDays_eq_self (fuel y m d : Nat) (h : d ≤ daysInMonth y m) (hf : 1 ≤ fuel) :
    rollDays fuel y m d = (y, m, d) := by
  cases fuel with
  | zero => omega
  | succ n => simp [rollDays, h]

/-- Adding minutes that stay within the hour only changes the minute
field. -/
theorem addMinutesDT_small (d : DateTime) (n : Nat) (hn : d.minute + n < 60)
    (hh : d.hour < 24) (hda : d.day ≤ daysInMonth d.year d.month) :
    addMinutesDT d n = { d with minute := d.minute + n } := by
  have h60 : (d.minute + n) / 60 = 0 := by omega
  have h60m : (d.minute + n) % 60 = d.minute + n := by omega
  have h24 : d.hour % 24 = d.hour := by omega
  have h24d : d.hour / 24 = 0 := by omega
  simp only [addMinutesDT, h60, h60m, Nat.add_zero, h24, h24d,
    rollDays_eq_self (d.day + 1) d.year d.month d.day hda (by omega)]

/-- Adding minutes that carry exactly one hour, short of midnight. -/
theorem addMinutesDT_carryHour (d : DateTime) (n : Nat) (h1 : 60 ≤ d.minute + n)
    (h2 : d.minute + n < 120) (hh : d.hour + 1 < 24)
    (hda : d.day ≤ daysInMonth d.year d.month) :
    addMinutesDT d n = { d with minute := d.minute + n - 60, hour := d.hour + 1 } := by
  have h60 : (d.minute + n) / 60 = 1 := by omega
  have h60m : (d.minute + n) % 60 = d.minute + n - 60 := by omega
  have h24 : (d.hour + 1) % 24 = d.hour + 1 := by omega
  have h24d : (d.hour + 1) / 24 = 0 := by omega
  simp only [addMinutesDT, h60, h60m, h24, h24d, Nat.add_zero,
    rollDays_eq_self (d.day + 1) d.year d.month d.day hda (by omega)]

/-- Adding minutes that carry one hour across midnight inside the month. -/
theorem addMinutesDT_carryDay (d : DateTime) (n : Nat) (h1 : 60 ≤ d.minute + n)
    (h2 : d.minute + n < 120) (hh : d.hour = 23)
    (hda : d.day + 1 ≤ daysInMonth d.year d.month) :
    addMinutesDT d n =
      { d with minute := d.minute + n - 60, hour := 0, day := d.day + 1 } := by
  have h60 : (d.minute + n) / 60 = 1 := by omega
  have h60m : (d.minute + n) % 60 = d.minute + n - 60 := by omega
  have h24 : (d.hour + 1) % 24 = 0 := by omega
  have h24d : (d.hour + 1) / 24 = 1 := by omega
  simp only [addMinutesDT, h60, h60m, h24, h24d,
    rollDays_eq_self (d.day + 1 + 1) d.year d.month (d.day + 1) hda (by omega)]

/-- Adding minutes that carry across midnight on the last day of a month
other than December. -/
theorem addMinutesDT_carryMonth (d : DateTime) (n : Nat) (h1 : 60 ≤ d.minute + n)
    (h2 : d.minute + n < 120) (hh : d.hour = 23)
    (hda : d.day = daysInMonth d.year d.month) (hmo : d.month < 12) :
    addMinutesDT d n =
      { d with minute := d.minute + n - 60, hour := 0, day := 1,
               month := d.month + 1 } := by
  have h60 : (d.minute + n) / 60 = 1 := by omega
  have h60m : (d.minute + n) % 60 = d.minute + n - 60 := by omega
  have h24 : (d.hour + 1) % 24 = 0 := by omega
  have h24d : (d.hour + 1) / 24 = 1 := by omega
  have hroll : rollDays (d.day + 1 + 1) d.year d.month (d.day + 1) =
      (d.year, d.month + 1, 1) := by
    rw [rollDays]
    rw [if_neg (by omega), if_neg (by omega)]
    have : d.day + 1 - daysInMonth d.year d.month = 1 := by omega
    rw [this]
    exact rollDays_eq_self _ _ _ _ (daysInMonth_pos _ _) (by omega)
  simp only [addMinutesDT, h60, h60m, h24, h24d, hroll]

/-- Adding minutes that carry across midnight on the thirty-first of
December. -/
theorem addMinutesDT_carryYear (d : DateTime) (n : Nat) (h1 : 60 ≤ d.minute + n)
    (h2 : d.minute + n < 120) (hh : d.hour = 23)
    (hda : d.day = daysInMonth d.year d.month) (hmo : d.month = 12) :
    addMinutesDT d n =
      { d with minute := d.minute + n - 60, hour := 0, day := 1, month := 1,
               year := d.year + 1 } := by
  have h60 : (d.minute + n) / 60 = 1 := by omega
  have h60m : (d.minute + n) % 60 = d.minute + n - 60 := by omega
  have h24 : (d.hour + 1) % 24 = 0 := by omega
  have h24d : (d.hour + 1) / 24 = 1 := by omega
  have hdim : daysInMonth d.year d.month = 31 := by
    rw [hmo]
    rfl
  have hroll : rollDays (d.day + 1 + 1) d.year d.month (d.day + 1) =
      (d.year + 1, 1, 1) := by
    rw [rollDays]
    rw [if_neg (by omega), if_pos (by omega)]
    have : d.day + 1 - daysInMonth d.year d.month = 1 := by omega
    rw [this]
    exact rollDays_eq_self _ _ _ _ (by simp [daysInMonth]) (by omega)
  simp only [addMinutesDT, h60, h60m, h24, h24d, hroll]

/-- Two successive interval hops from a constructible datetime land on the
same datetime as a single hop of twice the interval. -/
theorem addMinutesDT_five_five (d : DateTime) (hv : d.Valid) :
    addMinutesDT (addMinutesDT d 5) 5 = addMinutesDT d 10 := by
  obtain ⟨hy1, hy2, hmo1, hmo2, hda1, hda2, hh, hm, hs, hus⟩ := hv
  rcases Nat.lt_or_ge d.minute 50 with hlt | hge
  · rw [addMinutesDT_small d 5 (by omega) hh hda2]
    rw [addMinutesDT_small _ 5 (by simp; omega) (by simpa) (by simpa using hda2)]
    rw [addMinutesDT_small d 10 (by omega) hh hda2]
  · rcases Nat.lt_or_ge (d.hour + 1) 24 with hhc | hhc
    · rcases Nat.lt_or_ge d.minute 55 with hm55 | hm55
      · rw [addMinutesDT_small d 5 (by omega) hh hda2]
        rw [addMinutesDT_carryHour _ 5 (by simp; omega) (by simp; omega)
          (by simpa) (by simpa using hda2)]
        rw [addMinutesDT_carryHour d 10 (by omega) (by omega) hhc hda2]
      · rw [addMinutesDT_carryHour d 5 (by omega) (by omega) hhc hda2]
        rw [addMinutesDT_small _ 5 (by simp; omega) (by simp; omega)
          (by simpa using hda2)]
        rw [addMinutesDT_carryHour d 10 (by omega) (by omega) hhc hda2]
        all_goals simp <;> omega
    · have hh23 : d.hour = 23 := by omega
      rcases Nat.lt_or_ge d.day (daysInMonth d.year d.month) with hdlt | hdge
      · rcases Nat.lt_or_ge d.minute 55 with hm55 | hm55
        · rw [addMinutesDT_small d 5 (by omega) hh hda2]
          rw [addMinutesDT_carryDay _ 5 (by simp; omega) (by simp; omega)
            (by simpa) (by simpa using hdlt)]
          rw [addMinutesDT_carryDay d 10 (by omega) (by omega) hh23 (by omega)]
        · rw [addMinutesDT_carryDay d 5 (by omega) (by omega) hh23 (by omega)]
          rw [addMinutesDT_small _ 5 (by simp; omega) (by simp)
            (by simpa using hdlt)]
          rw [addMinutesDT_carryDay d 10 (by omega) (by omega) hh23 (by omega)]
          all_goals simp <;> omega
      · have hdeq : d.day = daysInMonth d.year d.month := by omega
        rcases Nat.lt_or_ge d.month 12 with hmlt | hmge
        · rcases Nat.lt_or_ge d.minute 55 with hm55 | hm55
          · rw [addMinutesDT_small d 5 (by omega) hh hda2]
            rw [addMinutesDT_carryMonth _ 5 (by simp; omega) (by simp; omega)
              (by simpa) (by simpa using hdeq) (by simpa using hmlt)]
            rw [addMinutesDT_carryMonth d 10 (by omega) (by omega) hh23 hdeq hmlt]
          · rw [addMinutesDT_carryMonth d 5 (by omega) (by omega) hh23 hdeq hmlt]
            rw [addMinutesDT_small _ 5 (by simp; omega) (by simp)
              (by simpa using daysInMonth_pos d.year (d.month + 1))]
            rw [addMinutesDT_carryMonth d 10 (by omega) (by omega) hh23 hdeq hmlt]
            all_goals simp <;> omega
        · have hm12 : d.month = 12 := by omega
          rcases Nat.lt_or_ge d.minute 55 with hm55 | hm55
          · rw [addMinutesDT_small d 5 (by omega) hh hda2]
            rw [addMinutesDT_carryYear _ 5 (by simp; omega) (by simp; omega)
              (by simpa) (by simpa using hdeq) (by simpa using hm12)]
            rw [addMinutesDT_carryYear d 10 (by omega) (by omega) hh23 hdeq hm12]
          · rw [addMinutesDT_carryYear d 5 (by omega) (by omega) hh23 hdeq hm12]
            rw [addMinutesDT_small _ 5 (by simp; omega) (by simp)
              (by simpa using daysInMonth_pos (d.year + 1) 1)]
            rw [addMinutesDT_carryYear d 10 (by omega) (by omega) hh23 hdeq hm12]
            all_goals simp <;> omega

/-- One interval hop never returns to the same datetime (the minute field
always moves). -/
theorem addMinutesDT_five_ne (d : DateTime) (hm : d.minute < 60) :
    addMinutesDT d 5 ≠ d := by
  intro he
  have h2 := congrArg DateTime.minute he
  simp [addMinutesDT] at h2
  omega

/-! ## Lemmas: hex round trip and digest bytes -/

theorem hexVal_hexChar : ∀ k < 16, hexVal (hexChar k) = k := by decide

theorem parseHexNat_hexdigest_aux (bs : List Nat) (h : ∀ b ∈ bs, b < 256) :
    ∀ acc : Nat, (hexdigest bs).foldl (fun acc c => acc * 16 + hexVal c) acc =
      bs.foldl (fun acc b => acc * 256 + b) acc := by
  induction bs with
  | nil => intro acc; rfl
  | cons b rest ih =>
    intro acc
    have hb : b < 256 := h b (List.mem_cons_self b rest)
    have hrest : ∀ x ∈ rest, x < 256 := fun x hx => h x (List.mem_cons_of_mem b hx)
    have h1 : hexVal (hexChar (b / 16)) = b / 16 := hexVal_hexChar _ (by omega)
    have h2 : hexVal (hexChar (b % 16)) = b % 16 := hexVal_hexChar _ (by omega)
    simp only [hexdigest, List.flatMap_cons, List.cons_append, List.nil_append,
      List.foldl_cons]
    rw [h1, h2]
    have harith : (acc * 16 + b / 16) * 16 + b % 16 = acc * 256 + b := by omega
    rw [harith]
    exact ih hrest (acc * 256 + b)

/-- Reading the lowercase hex digest back with int(h, 16) is the same as
interpreting the digest bytes as one big-endian unsigned integer. -/
theorem parseHexNat_hexdigest (bs : List Nat) (h : ∀ b ∈ bs, b < 256) :
    parseHexNat (hexdigest bs) = beBytesToNat bs :=
  parseHexNat_hexdigest_aux bs h 0

theorem sha256_bytes_lt (msg : List Nat) : ∀ b ∈ sha256 msg, b < 256 := by
  intro b hb
  simp only [sha256, List.mem_flatMap] at hb
  obtain ⟨w, _, hw⟩ := hb
  simp only [wordBytes, List.mem_cons, List.not_mem_nil, or_false] at hw
  rcases hw with h | h | h | h <;> subst h <;> exact Nat.mod_lt _ (by omega)

/-! ## Lemmas: the timestamp string of the specification -/

theorem pad2_eq_padLeftZeros (n : Nat) : pad2 n = padLeftZeros 2 n := by
  simp [pad2, padLeftZeros, natDigitChar, List.range_succ]

theorem pad4_eq_padLeftZeros (n : Nat) : pad4 n = padLeftZeros 4 n := by
  simp [pad4, padLeftZeros, natDigitChar, List.range_succ]

/-- The strftime format string of the code produces exactly the
specification's zero-padded minute-granular slot string. -/
theorem timeslotChars_eq_spec (d : DateTime) :
    timeslotChars d = specSlotChars d := by
  unfold timeslotChars specSlotChars
  rw [pad4_eq_padLeftZeros, pad2_eq_padLeftZeros, pad2_eq_padLeftZeros,
    pad2_eq_padLeftZeros, pad2_eq_padLeftZeros]

/-! ## Lemmas: the weighted sampler -/

theorem accumulateFrom_length (l : List ℚ) : ∀ acc, (accumulateFrom acc l).length = l.length + 1 := by
  induction l with
  | nil => intro acc; rfl
  | cons x rest ih => intro acc; simp [accumulateFrom, ih]

theorem accumulate_length (l : List ℚ) : (accumulate l).length = l.length := by
  cases l with
  | nil => rfl
  | cons x rest => simp [accumulate, accumulateFrom_length]

theorem accumulateFrom_ne_nil (l : List ℚ) (acc : ℚ) : accumulateFrom acc l ≠ [] := by
  cases l <;> simp [accumulateFrom]

theorem accumulateFrom_getLastD (l : List ℚ) :
    ∀ acc q, (accumulateFrom acc l).getLastD q = acc + l.sum := by
  induction l with
  | nil => intro acc q; simp [accumulateFrom]
  | cons x rest ih =>
    intro acc q
    rw [accumulateFrom, List.getLastD_cons, ih (acc + x) acc]
    simp
    ring

theorem accumulate_getLastD (l : List ℚ) (h : l ≠ []) :
    (accumulate l).getLastD 0 = l.sum := by
  cases l with
  | nil => exact absurd rfl h
  | cons x rest =>
    rw [accumulate, accumulateFrom_getLastD rest x 0]
    simp

theorem drawLoop_length (population : List String) (cum : List ℚ) (total : ℚ) (hi : Nat) :
    ∀ k st, ((drawLoop population cum total hi k st).1).length = k := by
  intro k
  induction k with
  | zero => intro st; rfl
  | succ n ih => intro st; simp [drawLoop, ih]

/-- The sampler succeeds exactly when the population is nonempty and the
weights total is positive; the successful draw has the requested length. -/
theorem pyChoices_ok (st : MTState) (population : List String) (weights : List ℚ)
    (k : Nat) (hlen : weights.length = population.length) (hpop : population ≠ [])
    (hsum : 0 < weights.sum) :
    pyChoices st population weights k =
      .ok (drawLoop population (accumulate weights) weights.sum
        (population.length - 1) k st) := by
  have h1 : (accumulate weights).length = population.length := by
    rw [accumulate_length, hlen]
  have h2 : population.length ≠ 0 := fun h => hpop (List.length_eq_zero.mp h)
  have hw : weights ≠ [] := by
    intro h
    rw [h] at hlen
    exact h2 hlen.symm
  have h3 : (accumulate weights).getLastD 0 = weights.sum := accumulate_getLastD weights hw
  rw [pyChoices]
  rw [if_neg (by omega), if_neg h2]
  simp only [h3]
  rw [if_neg (by exact not_le.mpr hsum)]

/-- The sampler raises exactly on an empty population or a non-positive
weight total (given the weight list matches the population, as in every
call the generator makes). -/
theorem pyChoices_error_iff (st : MTState) (population : List String)
    (weights : List ℚ) (k : Nat) (hlen : weights.length = population.length) :
    (∃ e, pyChoices st population weights k = .error e) ↔
      (population = [] ∨ weights.sum ≤ 0) := by
  constructor
  · intro ⟨e, he⟩
    by_contra hcon
    push_neg at hcon
    rw [pyChoices_ok st population weights k hlen hcon.1 hcon.2] at he
    exact Except.noConfusion he
  · intro h
    rcases h with h | h
    · subst h
      have hw : weights = [] := List.length_eq_zero.mp (by simpa using hlen)
      subst hw
      exact ⟨_, rfl⟩
    · rw [pyChoices]
      by_cases hpop : population = []
      · subst hpop
        have hw : weights = [] := List.length_eq_zero.mp (by simpa using hlen)
        subst hw
        exact ⟨_, rfl⟩
      · have h2 : population.length ≠ 0 := fun hh => hpop (List.length_eq_zero.mp hh)
        have hw : weights ≠ [] := by
          intro hh
          rw [hh] at hlen
          exact h2 hlen.symm
        have h3 : (accumulate weights).getLastD 0 = weights.sum :=
          accumulate_getLastD weights hw
        rw [if_neg (by rw [accumulate_length, hlen]; omega), if_neg h2]
        simp only [h3]
        rw [if_pos h]
        exact ⟨_, rfl⟩

/-! ## Lemmas: the generator -/

/-- With a nonempty egg list of positive total chance, inventory generation
succeeds with a shop of the configured size. -/
theorem generate_shop_inventory_ok (secret_key : String) (eggs : List Egg)
    (dt : DateTime) (he : eggs ≠ []) (hsum : 0 < (eggs.map Egg.chance).sum) :
    ∃ names, generate_shop_inventory secret_key eggs dt = .ok names ∧
      names.length = SHOP_SIZE := by
  have hlen : (eggs.map Egg.chance).length = (eggs.map Egg.name).length := by simp
  have hpop : eggs.map Egg.name ≠ [] := by simpa using he
  rw [generate_shop_inventory,
    pyChoices_ok _ (eggs.map Egg.name) (eggs.map Egg.chance) SHOP_SIZE hlen hpop hsum]
  exact ⟨_, rfl, drawLoop_length _ _ _ _ _ _⟩

/-- With a nonempty egg list of positive total chance, a full two-shop
generation succeeds, stamped with the slot, both shops being the
deterministically sampled string arrays for the slot and the next slot. -/
theorem generate_shops_for_time_ok (secret_key : String) (eggs : List Egg)
    (slot : DateTime) (he : eggs ≠ []) (hsum : 0 < (eggs.map Egg.chance).sum) :
    ∃ st cur nxt, generate_shops_for_time secret_key eggs slot = .ok st ∧
      st.generated_at = slot ∧
      generate_shop_inventory secret_key eggs slot = .ok cur ∧
      generate_shop_inventory secret_key eggs
        (addMinutesDT slot TIME_INTERVAL_MINUTES) = .ok nxt ∧
      st.current_shop = .arr (cur.map Json.str) ∧
      st.next_shop = .arr (nxt.map Json.str) ∧
      cur.length = SHOP_SIZE ∧ nxt.length = SHOP_SIZE := by
  obtain ⟨cur, hcur, hclen⟩ := generate_shop_inventory_ok secret_key eggs slot he hsum
  obtain ⟨nxt, hnxt, hnlen⟩ := generate_shop_inventory_ok secret_key eggs
    (addMinutesDT slot TIME_INTERVAL_MINUTES) he hsum
  refine ⟨⟨slot, .arr (cur.map Json.str), .arr (nxt.map Json.str)⟩, cur, nxt, ?_,
    rfl, hcur, hnxt, rfl, rfl, hclen, hnlen⟩
  rw [generate_shops_for_time, hcur, hnxt]

/-! ## Lemmas: the float sampler -/

theorem accumulateFromF_length (l : List PyFloat) :
    ∀ acc, (accumulateFromF acc l).length = l.length + 1 := by
  induction l with
  | nil => intro acc; rfl
  | cons x rest ih => intro acc; simp [accumulateFromF, ih]

theorem floatAccumulate_length (l : List PyFloat) :
    (floatAccumulate l).length = l.length := by
  cases l with
  | nil => rfl
  | cons x rest => simp [floatAccumulate, accumulateFromF_length]

/-- The float sampler succeeds exactly when the population is nonempty and
the float total is positive and finite; the successful draw is the float
draw loop. -/
theorem pyChoicesF_ok (st : MTState) (population : List String)
    (weights : List PyFloat) (k : Nat)
    (hlen : weights.length = population.length) (hpop : population ≠ [])
    (hpos : (floatTotal weights).leZero = false)
    (hfin : (floatTotal weights).isfinite = true) :
    pyChoicesF st population weights k =
      .ok (drawLoopF population (floatAccumulate weights) (floatTotal weights)
        (population.length - 1) k st) := by
  have h1 : (floatAccumulate weights).length = population.length := by
    rw [floatAccumulate_length, hlen]
  have h2 : population.length ≠ 0 := fun h => hpop (List.length_eq_zero.mp h)
  rw [pyChoicesF]
  rw [if_neg (by omega), if_neg h2]
  dsimp only []
  have h3 : fadd ((floatAccumulate weights).getLastD (.finite 0 0)) (.finite 0 0) =
      floatTotal weights := rfl
  rw [h3, hpos, hfin]
  rfl

/-- The float sampler raises exactly on an empty population, or a
non-positive float total, or a non-finite float total (given the weight
list matches the population, as in every call the generator makes). -/
theorem pyChoicesF_error_iff (st : MTState) (population : List String)
    (weights : List PyFloat) (k : Nat)
    (hlen : weights.length = population.length) :
    (∃ e, pyChoicesF st population weights k = .error e) ↔
      (population = [] ∨ (floatTotal weights).leZero = true ∨
        (floatTotal weights).isfinite = false) := by
  constructor
  · intro ⟨e, he⟩
    by_contra hcon
    push_neg at hcon
    obtain ⟨h1, h2, h3⟩ := hcon
    rw [pyChoicesF_ok st population weights k hlen h1
      (by simpa using h2) (by simpa using h3)] at he
    exact Except.noConfusion he
  · intro h
    by_cases hpop : population = []
    · have hw : weights = [] := List.length_eq_zero.mp (by rw [hlen, hpop]; rfl)
      rw [hpop, hw]
      exact ⟨_, rfl⟩
    · have h2 : population.length ≠ 0 := fun hh => hpop (List.length_eq_zero.mp hh)
      have hlen2 : ¬ (floatAccumulate weights).length ≠ population.length := by
        rw [floatAccumulate_length, hlen]
        omega
      have h3 : fadd ((floatAccumulate weights).getLastD (.finite 0 0)) (.finite 0 0) =
          floatTotal weights := rfl
      rcases h with h | h | h
      · exact absurd h hpop
      · rw [pyChoicesF]
        rw [if_neg hlen2, if_neg h2]
        dsimp only []
        rw [h3, h]
        exact ⟨_, rfl⟩
      · rw [pyChoicesF]
        rw [if_neg hlen2, if_neg h2]
        dsimp only []
        rw [h3]
        by_cases hz : (floatTotal weights).leZero = true
        · rw [hz]
          exact ⟨_, rfl⟩
        · rw [Bool.not_eq_true] at hz
          rw [hz, h]
          exact ⟨_, rfl⟩

/-! ## Lemmas: the branches of main -/

theorem runMain_empty (secret_key : String) (file : StateFile) (now : DateTime) :
    runMain secret_key [] file now = .crash "ValueError: Egg list cannot be empty." := by
  simp [runMain]

theorem runMain_load_error (secret_key : String) (eggs : List Egg) (file : StateFile)
    (now : DateTime) (e : String) (he : eggs ≠ [])
    (hl : loadPrior file = .error e) :
    runMain secret_key eggs file now = .crash e := by
  simp only [runMain, hl, if_neg he]

theorem runMain_gen_of_none (secret_key : String) (eggs : List Egg) (file : StateFile)
    (now : DateTime) (s : ShopState) (he : eggs ≠ [])
    (hl : loadPrior file = .ok none)
    (hg : generate_shops_for_time secret_key eggs (get_current_time_slot now) = .ok s) :
    runMain secret_key eggs file now = .wrote s.to_dict s := by
  simp only [runMain, hl, hg, if_neg he]

theorem runMain_gen_of_none_err (secret_key : String) (eggs : List Egg)
    (file : StateFile) (now : DateTime) (e : String) (he : eggs ≠ [])
    (hl : loadPrior file = .ok none)
    (hg : generate_shops_for_time secret_key eggs (get_current_time_slot now) = .error e) :
    runMain secret_key eggs file now = .crash e := by
  simp only [runMain, hl, hg, if_neg he]

theorem runMain_gen_of_mismatch (secret_key : String) (eggs : List Egg)
    (file : StateFile) (now : DateTime) (p s : ShopState) (he : eggs ≠ [])
    (hl : loadPrior file = .ok (some p))
    (hne : p.generated_at ≠ get_current_time_slot now)
    (hg : generate_shops_for_time secret_key eggs (get_current_time_slot now) = .ok s) :
    runMain secret_key eggs file now = .wrote s.to_dict s := by
  simp only [runMain, hl, if_neg he, if_neg hne, hg]

theorem runMain_gen_of_mismatch_err (secret_key : String) (eggs : List Egg)
    (file : StateFile) (now : DateTime) (p : ShopState) (e : String) (he : eggs ≠ [])
    (hl : loadPrior file = .ok (some p))
    (hne : p.generated_at ≠ get_current_time_slot now)
    (hg : generate_shops_for_time secret_key eggs (get_current_time_slot now) = .error e) :
    runMain secret_key eggs file now = .crash e := by
  simp only [runMain, hl, if_neg he, if_neg hne, hg]

theorem runMain_reuse (secret_key : String) (eggs : List Egg) (file : StateFile)
    (now : DateTime) (p : ShopState) (he : eggs ≠ [])
    (hl : loadPrior file = .ok (some p))
    (heq : p.generated_at = get_current_time_slot now) :
    runMain secret_key eggs file now = .wrote p.to_dict p := by
  simp only [runMain, hl, if_neg he, if_pos heq]

theorem generate_shops_generated_at (secret_key : String) (eggs : List Egg)
    (slot : DateTime) (s : ShopState)
    (hg : generate_shops_for_time secret_key eggs slot = .ok s) :
    s.generated_at = slot := by
  rw [generate_shops_for_time] at hg
  rcases h1 : generate_shop_inventory secret_key eggs slot with e | cur
  all_goals rw [h1] at hg
  · exact absurd hg (by simp)
  · rcases h2 : generate_shop_inventory secret_key eggs
        (addMinutesDT slot TIME_INTERVAL_MINUTES) with e | nxt
    all_goals rw [h2] at hg
    · exact absurd hg (by simp)
    · cases hg
      rfl

/-- Inversion: any write of a run is stamped with the current slot, records
the serialization of the written state, and came from the reuse branch or
from a successful regeneration. -/
theorem runMain_wrote_inv (secret_key : String) (eggs : List Egg) (file : StateFile)
    (now : DateTime) (c : Json) (st : ShopState)
    (hrun : runMain secret_key eggs file now = .wrote c st) :
    c = st.to_dict ∧ st.generated_at = get_current_time_slot now ∧
      ((loadPrior file = .ok (some st) ∧
          st.generated_at = get_current_time_slot now) ∨
        generate_shops_for_time secret_key eggs (get_current_time_slot now) = .ok st) := by
  by_cases he : eggs = []
  · subst he
    rw [runMain_empty] at hrun
    exact absurd hrun (by simp)
  · rw [runMain] at hrun
    rw [if_neg he] at hrun
    rcases hload : loadPrior file with e | exi
    all_goals rw [hload] at hrun
    · exact absurd hrun (by simp)
    · rcases exi with _ | p
      · rcases hg : generate_shops_for_time secret_key eggs (get_current_time_slot now)
          with e | s
        all_goals simp only [hg] at hrun
        · exact absurd hrun (by simp)
        · cases hrun
          have hst := generate_shops_generated_at _ _ _ _ hg
          exact ⟨rfl, hst, Or.inr rfl⟩
      · by_cases heq : p.generated_at = get_current_time_slot now
        · simp only [if_pos heq] at hrun
          cases hrun
          exact ⟨rfl, heq, Or.inl ⟨rfl, heq⟩⟩
        · simp only [if_neg heq] at hrun
          rcases hg : generate_shops_for_time secret_key eggs (get_current_time_slot now)
            with e | s
          all_goals simp only [hg] at hrun
          · exact absurd hrun (by simp)
          · cases hrun
            have hst := generate_shops_generated_at _ _ _ _ hg
            exact ⟨rfl, hst, Or.inr rfl⟩

/-! ## Concrete fixtures used by witnesses and counterexamples -/

/-- A one-entry egg table with unit chance. -/
def eggA : Egg := ⟨"A", 1⟩

/-- The slot 2024-01-01 00:00 UTC. -/
def dtT : DateTime := ⟨2024, 1, 1, 0, 0, 0, 0, true⟩

/-- The slot 2024-01-01 00:05 UTC, one interval after dtT. -/
def dtT5 : DateTime := ⟨2024, 1, 1, 0, 5, 0, 0, true⟩

/-- An instant inside the slot dtT5. -/
def nowT5 : DateTime := ⟨2024, 1, 1, 0, 7, 30, 123, true⟩

/-! ## Claim C2: the seed derivation -/

/-- C2: for every secret key and every slot, the derived seed equals the
SHA-256 digest of the UTF-8 bytes of the string key, colon, slot formatted
as the zero-padded minute-granular timestamp YYYY-MM-DDTHH:MM (no timezone
suffix, no seconds or microseconds), interpreted as a big-endian unsigned
integer; and any two instants truncating to the same slot derive the
identical seed. -/
theorem c2_seed_spec (secret_key : String) (d i1 i2 : DateTime) :
    create_seed secret_key d = specDeriveSeed secret_key d ∧
    (get_current_time_slot i1 = get_current_time_slot i2 →
      create_seed secret_key (get_current_time_slot i1) =
        create_seed secret_key (get_current_time_slot i2)) := by
  constructor
  · rw [create_seed, specDeriveSeed, ← timeslotChars_eq_spec]
    exact parseHexNat_hexdigest _ (sha256_bytes_lt _)
  · intro h
    rw [h]

theorem c2_seed_spec_witness :
    get_current_time_slot nowT5 = get_current_time_slot dtT5 ∧
    create_seed "abc" dtT = specDeriveSeed "abc" dtT ∧
    create_seed "abc" (get_current_time_slot nowT5) =
      create_seed "abc" (get_current_time_slot dtT5) :=
  ⟨rfl, (c2_seed_spec "abc" dtT nowT5 dtT5).1, (c2_seed_spec "abc" dtT nowT5 dtT5).2 rfl⟩

/-! ## Claim C3: determinism of seed and sampler -/

/-- C3: seed derivation and sampling are deterministic: equal keys and
slots give equal seeds, and equal seeds with equal name lists (same order)
and equal weight lists give identical inventory results, independent of
anything else in the egg records. -/
theorem c3_determinism (k1 k2 : String) (t1 t2 : DateTime) (e1 e2 : List Egg)
    (hk : k1 = k2) (ht : t1 = t2)
    (hn : e1.map Egg.name = e2.map Egg.name)
    (hw : e1.map Egg.chance = e2.map Egg.chance) :
    create_seed k1 t1 = create_seed k2 t2 ∧
    generate_shop_inventory k1 e1 t1 = generate_shop_inventory k2 e2 t2 := by
  subst hk
  subst ht
  refine ⟨rfl, ?_⟩
  rw [generate_shop_inventory, generate_shop_inventory, hn, hw]

theorem c3_determinism_witness :
    create_seed "k" dtT = create_seed "k" dtT ∧
    generate_shop_inventory "k" [eggA] dtT = generate_shop_inventory "k" [eggA] dtT :=
  c3_determinism "k" "k" dtT dtT [eggA] [eggA] rfl rfl rfl rfl

/-! ## Claim C10: serialization round trip -/

/-- C10: for every ShopState whose generated_at is a constructible
UTC-aware datetime with zero microseconds, deserializing the dictionary
produced by to_dict restores the state exactly. -/
theorem c10_roundtrip (s : ShopState) (hv : s.generated_at.Valid)
    (hu : s.generated_at.utc = true) (hus : s.generated_at.microsecond = 0) :
    ShopState.from_dict s.to_dict = .ok (some s) :=
  from_dict_to_dict s hv hu hus

theorem c10_roundtrip_witness :
    (dtT.Valid ∧ dtT.utc = true ∧ dtT.microsecond = 0) ∧
    ShopState.from_dict (ShopState.to_dict ⟨dtT, .arr [.str "A"], .null⟩) =
      .ok (some ⟨dtT, .arr [.str "A"], .null⟩) :=
  ⟨⟨by decide, rfl, rfl⟩,
   c10_roundtrip ⟨dtT, .arr [.str "A"], .null⟩ (by decide) rfl rfl⟩

/-! ## Claim C5: corrupt-state recovery -/

/-- C5 as stated is false: a state file whose contents are invalid JSON is
decoded by json.load in main, outside the try block inside from_dict, so
the JSONDecodeError escapes and the run crashes instead of proceeding. -/
theorem c5_counterexample :
    runMain "k" [eggA] .unparsable nowT5 =
      .crash "json.JSONDecodeError: Expecting value" := rfl

/-- C5 amended: a state file that holds a parsed JSON object missing the
generated_at field, or whose generated_at is a string that does not parse
as a timestamp, loads as absent rather than an error, and the engine then
proceeds without crashing, writing two freshly sampled shops for the
current and next slot; a file with invalid JSON instead raises an uncaught
decode error. -/
theorem c5_amended (secret_key : String) (eggs : List Egg) (now : DateTime)
    (fields : List (String × Json)) (j : Json)
    (he : eggs ≠ []) (hsum : 0 < (eggs.map Egg.chance).sum) :
    (lookupLast fields "generated_at" = none →
      ShopState.from_dict (.obj fields) = .ok none) ∧
    (∀ s : String, lookupLast fields "generated_at" = some (.str s) →
      fromisoformatChars (replaceList ['Z'] PLUS0000 s.data) = none →
      ShopState.from_dict (.obj fields) = .ok none) ∧
    (ShopState.from_dict j = .ok none →
      ∃ st cur nxt, runMain secret_key eggs (.json j) now = .wrote st.to_dict st ∧
        st.generated_at = get_current_time_slot now ∧
        generate_shop_inventory secret_key eggs (get_current_time_slot now) = .ok cur ∧
        generate_shop_inventory secret_key eggs
          (addMinutesDT (get_current_time_slot now) TIME_INTERVAL_MINUTES) = .ok nxt ∧
        st.current_shop = .arr (cur.map Json.str) ∧
        st.next_shop = .arr (nxt.map Json.str)) := by
  refine ⟨?_, ?_, ?_⟩
  · intro h
    simp [ShopState.from_dict, h]
  · intro s h1 h2
    simp [ShopState.from_dict, h1, h2]
  · intro hj
    obtain ⟨st, cur, nxt, hok, hga, hcur, hnxt, hcs, hns, _, _⟩ :=
      generate_shops_for_time_ok secret_key eggs (get_current_time_slot now) he hsum
    exact ⟨st, cur, nxt,
      runMain_gen_of_none secret_key eggs (.json j) now st he hj hok,
      hga, hcur, hnxt, hcs, hns⟩

theorem c5_amended_witness :
    ([eggA] ≠ [] ∧ 0 < ([eggA].map Egg.chance).sum ∧
      lookupLast [("x", Json.null)] "generated_at" = none ∧
      ShopState.from_dict (.obj [("generated_at", .str "oops")]) = .ok none) ∧
    ShopState.from_dict (.obj [("x", Json.null)]) = .ok none := by
  have h := c5_amended "k" [eggA] nowT5 [("x", Json.null)] (.obj [("x", Json.null)])
    (by simp) (by norm_num [eggA])
  exact ⟨⟨by simp, by norm_num [eggA], rfl, rfl⟩, h.1 rfl⟩

/-! ## Claim C4: sampler failure conditions -/

/-- C4 as stated is false in both directions of its iff, shown on the
bit-exact float sampler.  With weights 2 and -1 one weight is
non-positive, so the claim predicts an InvalidInput failure, but
random.choices validates only the total (here the float total is 1) and
the draw succeeds.  With two weights of 1e308 every weight is positive
and the exact sum is nonzero, so the claim predicts success, but the
float total overflows to infinity and the sampler raises the finiteness
ValueError. -/
theorem c4_counterexample :
    (((2 : ℚ) ≤ 0 ∨ (-1 : ℚ) ≤ 0) ∧
      ∃ out, pyChoicesF (seedMT (create_seed "k" dtT)) ["A", "B"]
        [.finite 2 0, .finite (-1) 0] 3 = .ok out) ∧
    ((roundDy (10 ^ 308) 0).leZero = false ∧
      pyChoicesF (seedMT (create_seed "k" dtT)) ["A", "B"]
        [roundDy (10 ^ 308) 0, roundDy (10 ^ 308) 0] 3 =
        .error "ValueError: Total of weights must be finite") := by
  refine ⟨⟨by norm_num, ?_⟩, by decide, ?_⟩
  · exact ⟨_, pyChoicesF_ok _ _ _ _ rfl (by simp) (by decide) (by decide)⟩
  · rfl

/-- C4 amended: sampling fails with a ValueError if and only if the item
list is empty, or the weight total as random.choices computes it — by
binary64 float accumulation of the float weights — is non-positive or
non-finite.  An individual weight at most zero does not by itself cause
failure, and a positive exact sum does not guarantee success, since float
cancellation can make the total zero and float overflow can make it
infinite.  Whenever a run attempts sampling and it fails, the run aborts
with the sampler's error and writes nothing, leaving any previously
persisted file unchanged. -/
theorem c4_amended (st : MTState) (population : List String)
    (weights : List PyFloat) (k : Nat) (secret_key : String) (eggs : List Egg)
    (file : StateFile) (now : DateTime) (e : String)
    (hlen : weights.length = population.length)
    (he : eggs ≠ []) (hload : loadPrior file = .ok none)
    (hgen : generate_shops_for_time secret_key eggs
      (get_current_time_slot now) = .error e) :
    ((∃ e2, pyChoicesF st population weights k = .error e2) ↔
      (population = [] ∨ (floatTotal weights).leZero = true ∨
        (floatTotal weights).isfinite = false)) ∧
    runMain secret_key eggs file now = .crash e :=
  ⟨pyChoicesF_error_iff st population weights k hlen,
   runMain_gen_of_none_err secret_key eggs file now e he hload hgen⟩

theorem c4_amended_witness :
    ([PyFloat.finite (10 ^ 16) 0, .finite 1 0,
        .finite (-(10 ^ 16)) 0].length = ["A", "B", "C"].length ∧
      [(⟨"A", 0⟩ : Egg)] ≠ [] ∧ loadPrior .absent = .ok none ∧
      generate_shops_for_time "w" [⟨"A", 0⟩] (get_current_time_slot nowT5) =
        .error "ValueError: Total of weights must be greater than zero" ∧
      (0 : ℤ) < 10 ^ 16 + 1 + -(10 ^ 16)) ∧
    (∃ e2, pyChoicesF (seedMT (create_seed "w" dtT)) ["A", "B", "C"]
      [.finite (10 ^ 16) 0, .finite 1 0, .finite (-(10 ^ 16)) 0] 3 =
        .error e2) ∧
    runMain "w" [⟨"A", 0⟩] .absent nowT5 =
      .crash "ValueError: Total of weights must be greater than zero" := by
  have h := c4_amended (seedMT (create_seed "w" dtT)) ["A", "B", "C"]
    [.finite (10 ^ 16) 0, .finite 1 0, .finite (-(10 ^ 16)) 0] 3 "w"
    [⟨"A", 0⟩] .absent nowT5
    "ValueError: Total of weights must be greater than zero"
    rfl (by simp) rfl rfl
  exact ⟨⟨rfl, by simp, rfl, rfl, by norm_num⟩,
    h.1.mpr (Or.inr (Or.inl (by decide))), h.2⟩

/-! ## Claim C1: rotation of the committed next shop -/

/-- A one-slot-old prior state whose next_shop is not the sample of the new
slot (here: three draws of an egg that is not in the table at all). -/
def c1Prior : ShopState :=
  ⟨dtT, .arr [.str "B", .str "B", .str "B"], .arr [.str "B", .str "B", .str "B"]⟩

/-- The state the run at slot dtT5 actually writes for the one-egg table. -/
def c1Result : ShopState :=
  ⟨dtT5, .arr [.str "A", .str "A", .str "A"], .arr [.str "A", .str "A", .str "A"]⟩

/-- C1 as stated is false: the code has no promote branch and regenerates
both shops, so for a prior state whose next_shop is an arbitrary value X
(not the committed sample), the new current_shop is the fresh sample, not
X.  Here the prior state is one slot old and carries next_shop B,B,B, yet
the run at the following slot writes current_shop A,A,A. -/
theorem c1_counterexample :
    c1Prior.generated_at = dtT ∧
    get_current_time_slot nowT5 = addMinutesDT dtT TIME_INTERVAL_MINUTES ∧
    loadPrior (.json c1Prior.to_dict) = .ok (some c1Prior) ∧
    runMain "k" [eggA] (.json c1Prior.to_dict) nowT5 =
      .wrote c1Result.to_dict c1Result ∧
    c1Result.current_shop ≠ c1Prior.next_shop := by
  refine ⟨rfl, rfl, rfl, rfl, ?_⟩
  simp [c1Prior, c1Result]

/-- C1 amended: when the prior state is one slot old and its next_shop is
the committed sample of the new slot (which every state the engine itself
wrote satisfies), the run at the new slot writes a state whose
current_shop equals that next_shop — by deterministic recomputation, not
by copying — whose next_shop is the sample for the slot two intervals
after the prior generation time, and whose generated_at is the new slot. -/
theorem c1_amended (secret_key : String) (eggs : List Egg) (now T : DateTime)
    (prior : ShopState) (j : Json) (nx : List String)
    (hv : T.Valid) (he : eggs ≠ []) (hsum : 0 < (eggs.map Egg.chance).sum)
    (hload : loadPrior (.json j) = .ok (some prior))
    (hga : prior.generated_at = T)
    (hslot : get_current_time_slot now = addMinutesDT T TIME_INTERVAL_MINUTES)
    (hnx : generate_shop_inventory secret_key eggs
      (addMinutesDT T TIME_INTERVAL_MINUTES) = .ok nx)
    (hinv : prior.next_shop = .arr (nx.map Json.str)) :
    ∃ st nxt, runMain secret_key eggs (.json j) now = .wrote st.to_dict st ∧
      st.current_shop = prior.next_shop ∧
      st.generated_at = addMinutesDT T TIME_INTERVAL_MINUTES ∧
      generate_shop_inventory secret_key eggs
        (addMinutesDT (addMinutesDT T TIME_INTERVAL_MINUTES)
          TIME_INTERVAL_MINUTES) = .ok nxt ∧
      addMinutesDT (addMinutesDT T TIME_INTERVAL_MINUTES) TIME_INTERVAL_MINUTES =
        addMinutesDT T (2 * TIME_INTERVAL_MINUTES) ∧
      st.next_shop = .arr (nxt.map Json.str) := by
  have hm : T.minute < 60 := hv.2.2.2.2.2.2.2.1
  obtain ⟨st, cur, nxt, hok, hga2, hcur, hnxt2, hcs, hns, _, _⟩ :=
    generate_shops_for_time_ok secret_key eggs (get_current_time_slot now) he hsum
  have hne : prior.generated_at ≠ get_current_time_slot now := by
    rw [hga, hslot]
    exact fun h => addMinutesDT_five_ne T hm h.symm
  have hrun := runMain_gen_of_mismatch secret_key eggs (.json j) now prior st he
    hload hne hok
  rw [hslot] at hcur hnxt2
  have hcn : cur = nx := by
    rw [hcur] at hnx
    exact Except.ok.inj hnx
  have h55 : addMinutesDT (addMinutesDT T TIME_INTERVAL_MINUTES)
      TIME_INTERVAL_MINUTES = addMinutesDT T (2 * TIME_INTERVAL_MINUTES) := by
    show addMinutesDT (addMinutesDT T 5) 5 = addMinutesDT T (2 * 5)
    rw [addMinutesDT_five_five T hv]
  refine ⟨st, nxt, hrun, ?_, ?_, hnxt2, h55, hns⟩
  · rw [hcs, hcn, hinv]
  · rw [hga2, hslot]

theorem c1_amended_witness :
    (dtT.Valid ∧ c1Result.generated_at = addMinutesDT dtT TIME_INTERVAL_MINUTES ∧
      get_current_time_slot nowT5 = addMinutesDT dtT TIME_INTERVAL_MINUTES) ∧
    ∃ st nxt, runMain "k" [eggA] (.json
        (ShopState.to_dict ⟨dtT, Json.null, .arr [.str "A", .str "A", .str "A"]⟩))
        nowT5 = .wrote st.to_dict st ∧
      st.current_shop = (ShopState.next_shop
        ⟨dtT, Json.null, .arr [.str "A", .str "A", .str "A"]⟩) ∧
      st.generated_at = addMinutesDT dtT TIME_INTERVAL_MINUTES ∧
      generate_shop_inventory "k" [eggA]
        (addMinutesDT (addMinutesDT dtT TIME_INTERVAL_MINUTES)
          TIME_INTERVAL_MINUTES) = .ok nxt ∧
      addMinutesDT (addMinutesDT dtT TIME_INTERVAL_MINUTES) TIME_INTERVAL_MINUTES =
        addMinutesDT dtT (2 * TIME_INTERVAL_MINUTES) ∧
      st.next_shop = .arr (nxt.map Json.str) := by
  refine ⟨⟨by decide, rfl, rfl⟩, ?_⟩
  exact c1_amended "k" [eggA] nowT5 dtT
    ⟨dtT, Json.null, .arr [.str "A", .str "A", .str "A"]⟩ _ ["A", "A", "A"]
    (by decide) (by simp) (by norm_num [eggA]) rfl rfl rfl rfl rfl

/-! ## Claim C6: idempotence within a slot -/

/-- C6: a second invocation with the same key and weight table while the
clock is still in the first run's slot reloads the state the first run
wrote, takes the no-op reuse branch, and writes exactly the same content
and state again. -/
theorem c6_idempotent (secret_key : String) (eggs : List Egg) (file : StateFile)
    (now now2 : DateTime) (c : Json) (st : ShopState)
    (hv : now.Valid) (hu : now.utc = true)
    (h1 : runMain secret_key eggs file now = .wrote c st)
    (hclock : get_current_time_slot now2 = get_current_time_slot now) :
    loadPrior (.json c) = .ok (some st) ∧
    runMain secret_key eggs (.json c) now2 = .wrote c st := by
  have he : eggs ≠ [] := by
    intro hemp
    subst hemp
    rw [runMain_empty] at h1
    exact RunResult.noConfusion h1
  obtain ⟨hc, hga, _⟩ := runMain_wrote_inv secret_key eggs file now c st h1
  subst hc
  have hvs : st.generated_at.Valid := hga ▸ slot_valid now hv
  have hus : st.generated_at.microsecond = 0 := by
    rw [hga]
    exact slot_microsecond now
  have hut : st.generated_at.utc = true := by
    rw [hga, slot_utc, hu]
  have hload : loadPrior (.json st.to_dict) = .ok (some st) :=
    from_dict_to_dict st hvs hut hus
  refine ⟨hload, ?_⟩
  exact runMain_reuse secret_key eggs (.json st.to_dict) now2 st he hload
    (by rw [hga, hclock])

theorem c6_idempotent_witness :
    (nowT5.Valid ∧ nowT5.utc = true ∧
      runMain "k" [eggA] .absent nowT5 = .wrote c1Result.to_dict c1Result ∧
      get_current_time_slot dtT5 = get_current_time_slot nowT5) ∧
    loadPrior (.json c1Result.to_dict) = .ok (some c1Result) ∧
    runMain "k" [eggA] (.json c1Result.to_dict) dtT5 =
      .wrote c1Result.to_dict c1Result := by
  refine ⟨⟨by decide, rfl, rfl, rfl⟩, ?_⟩
  exact c6_idempotent "k" [eggA] .absent nowT5 dtT5 c1Result.to_dict c1Result
    (by decide) rfl rfl rfl

/-! ## Claim C7: the current and next shop invariant -/

/-- The invariant of section 3 of the specification: the current shop is
the sample committed to the generation slot and the next shop the sample
committed to the following slot, under the run's key and egg table. -/
def ShopInv (secret_key : String) (eggs : List Egg) (s : ShopState) : Prop :=
  (∃ cur, generate_shop_inventory secret_key eggs s.generated_at = .ok cur ∧
    s.current_shop = .arr (cur.map Json.str)) ∧
  (∃ nxt, generate_shop_inventory secret_key eggs
      (addMinutesDT s.generated_at TIME_INTERVAL_MINUTES) = .ok nxt ∧
    s.next_shop = .arr (nxt.map Json.str))

theorem generate_shops_inv (secret_key : String) (eggs : List Egg)
    (slot : DateTime) (s : ShopState)
    (hg : generate_shops_for_time secret_key eggs slot = .ok s) :
    s.generated_at = slot ∧ ShopInv secret_key eggs s := by
  have hga := generate_shops_generated_at secret_key eggs slot s hg
  rw [generate_shops_for_time] at hg
  rcases h1 : generate_shop_inventory secret_key eggs slot with e | cur
  all_goals rw [h1] at hg
  · exact absurd hg (by simp)
  · rcases h2 : generate_shop_inventory secret_key eggs
        (addMinutesDT slot TIME_INTERVAL_MINUTES) with e | nxt
    all_goals rw [h2] at hg
    · exact absurd hg (by simp)
    · cases hg
      exact ⟨rfl, ⟨cur, h1, rfl⟩, ⟨nxt, h2, rfl⟩⟩

/-- C7: every run preserves the shop invariant: if the prior state, when
one is loaded and reused, satisfies it, then the state the run writes
satisfies it; freshly generated states satisfy it outright. -/
theorem c7_invariant (secret_key : String) (eggs : List Egg) (file : StateFile)
    (now : DateTime) (c : Json) (st : ShopState)
    (hprior : ∀ p, loadPrior file = .ok (some p) → ShopInv secret_key eggs p)
    (hrun : runMain secret_key eggs file now = .wrote c st) :
    ShopInv secret_key eggs st := by
  obtain ⟨_, _, hbranch⟩ := runMain_wrote_inv secret_key eggs file now c st hrun
  rcases hbranch with ⟨hload, _⟩ | hgen
  · exact hprior st hload
  · exact (generate_shops_inv secret_key eggs (get_current_time_slot now) st hgen).2

theorem c7_invariant_witness :
    runMain "k" [eggA] .absent nowT5 = .wrote c1Result.to_dict c1Result ∧
    ShopInv "k" [eggA] c1Result := by
  refine ⟨rfl, ?_⟩
  exact c7_invariant "k" [eggA] .absent nowT5 c1Result.to_dict c1Result
    (fun p h => by exact absurd h (by simp [loadPrior])) rfl

/-! ## Claim C9: shape of the persisted record -/

theorem generate_shop_inventory_length (secret_key : String) (eggs : List Egg)
    (dt : DateTime) (cur : List String)
    (h : generate_shop_inventory secret_key eggs dt = .ok cur) :
    cur.length = SHOP_SIZE := by
  rw [generate_shop_inventory] at h
  rcases hp : pyChoices (seedMT (create_seed secret_key dt)) (eggs.map Egg.name)
      (eggs.map Egg.chance) SHOP_SIZE with e | out
  all_goals rw [hp] at h
  · exact absurd h (by simp)
  · cases h
    rw [pyChoices] at hp
    split at hp
    · exact absurd hp (by simp)
    · split at hp
      · exact absurd hp (by simp)
      · dsimp only [] at hp
        split at hp
        · exact absurd hp (by simp)
        · cases hp
          exact drawLoop_length _ _ _ _ _ _

/-- Both shop fields are string arrays of the configured size. -/
def WellShaped (s : ShopState) : Prop :=
  (∃ names : List String, names.length = SHOP_SIZE ∧
    s.current_shop = .arr (names.map Json.str)) ∧
  (∃ names : List String, names.length = SHOP_SIZE ∧
    s.next_shop = .arr (names.map Json.str))

/-- C9: the written JSON object's generated_at is the UTC-aware isoformat
text with a trailing Z in place of the offset and no dot (hence no
fractional seconds), its instant is truncated to the configured interval
(zero seconds and microseconds, minute a multiple of the interval), and
the shop fields are string arrays of the configured size — the last given
that a reused prior state already has that shape, which clause two of the
conclusion shows every written state has. -/
theorem c9_format (secret_key : String) (eggs : List Egg) (file : StateFile)
    (now : DateTime) (c : Json) (st : ShopState)
    (hu : now.utc = true)
    (hprior : ∀ p, loadPrior file = .ok (some p) → WellShaped p)
    (hrun : runMain secret_key eggs file now = .wrote c st) :
    c = .obj [("generated_at",
        .str (String.mk (isoBase st.generated_at ++ ['Z']))),
      ("current_shop", st.current_shop), ("next_shop", st.next_shop)] ∧
    '.' ∉ isoBase st.generated_at ∧
    st.generated_at.second = 0 ∧ st.generated_at.microsecond = 0 ∧
    st.generated_at.minute % TIME_INTERVAL_MINUTES = 0 ∧
    st.generated_at.utc = true ∧ WellShaped st := by
  obtain ⟨hc, hga, hbranch⟩ := runMain_wrote_inv secret_key eggs file now c st hrun
  have hus : st.generated_at.microsecond = 0 := by
    rw [hga]
    exact slot_microsecond now
  have hut : st.generated_at.utc = true := by
    rw [hga, slot_utc, hu]
  have hsec : st.generated_at.second = 0 := by
    rw [hga]
    exact slot_second now
  have hmod : st.generated_at.minute % TIME_INTERVAL_MINUTES = 0 := by
    rw [hga]
    exact slot_minute_mod now
  have hstr : replaceList PLUS0000 ['Z'] (isoformatChars st.generated_at) =
      isoBase st.generated_at ++ ['Z'] := by
    have h2 := @replaceList_suffix '+' ['0', '0', ':', '0', '0'] ['Z']
      (isoBase st.generated_at) (plus_not_mem_isoBase hus)
    simp only [isoformatChars, hut, if_true]
    simpa [PLUS0000] using h2
  refine ⟨?_, dot_not_mem_isoBase hus, hsec, hus, hmod, hut, ?_⟩
  · rw [hc, ShopState.to_dict, hstr]
  · rcases hbranch with ⟨hload, _⟩ | hgen
    · exact hprior st hload
    · obtain ⟨_, ⟨cur, hcur, hcs⟩, ⟨nxt, hnxt, hns⟩⟩ :=
        generate_shops_inv secret_key eggs (get_current_time_slot now) st hgen
      exact ⟨⟨cur, generate_shop_inventory_length _ _ _ _ hcur, hcs⟩,
             ⟨nxt, generate_shop_inventory_length _ _ _ _ hnxt, hns⟩⟩

theorem c9_format_witness :
    (nowT5.utc = true ∧
      runMain "k" [eggA] .absent nowT5 = .wrote c1Result.to_dict c1Result) ∧
    c1Result.to_dict = .obj [("generated_at",
        .str (String.mk (isoBase c1Result.generated_at ++ ['Z']))),
      ("current_shop", c1Result.current_shop),
      ("next_shop", c1Result.next_shop)] ∧
    '.' ∉ isoBase c1Result.generated_at ∧
    c1Result.generated_at.second = 0 ∧ c1Result.generated_at.microsecond = 0 ∧
    c1Result.generated_at.minute % TIME_INTERVAL_MINUTES = 0 ∧
    c1Result.generated_at.utc = true ∧ WellShaped c1Result := by
  refine ⟨⟨rfl, rfl⟩, ?_⟩
  exact c9_format "k" [eggA] .absent nowT5 c1Result.to_dict c1Result rfl
    (fun p h => by exact absurd h (by simp [loadPrior])) rfl

/-! ## Claim C8: atomicity of the write -/

theorem jsonDump_state_ne_empty (s : ShopState) : jsonDumpIndent2 s.to_dict ≠ "" := by
  intro h
  have h2 : dumpJson 0 s.to_dict = [] := by
    have h3 := congrArg String.data h
    simpa [jsonDumpIndent2] using h3
  rw [ShopState.to_dict] at h2
  simp [dumpJson] at h2

/-- C8 as stated is false: the write truncates the output file in place
(open in mode w) before json.dump writes, so a reader between the two
observes empty content, which is neither the prior nor the new value. -/
theorem c8_counterexample :
    ¬ atomicReplace (some "previous") ⟨dtT5, .arr [.str "A"], .arr [.str "A"]⟩ := by
  intro h
  rcases h (some "") (by simp [saveObservable]) with h2 | h2
  · simp at h2
  · exact jsonDump_state_ne_empty ⟨dtT5, .arr [.str "A"], .arr [.str "A"]⟩
      (Option.some.inj h2).symm

/-- C8 amended: the write is an in-place truncate-then-write, not a
temporary-file rename: the last observable content is the complete
serialization of the new state, but an empty intermediate content is
observable between truncation and write, so the replacement is not atomic
whenever the prior content was nonempty. -/
theorem c8_amended (prior : Option String) (s : ShopState) (hp : prior ≠ some "") :
    (saveObservable prior s).getLast? =
      some (some (jsonDumpIndent2 s.to_dict)) ∧
    some "" ∈ saveObservable prior s ∧
    ¬ atomicReplace prior s := by
  refine ⟨rfl, by simp [saveObservable], ?_⟩
  intro h
  rcases h (some "") (by simp [saveObservable]) with h2 | h2
  · exact hp h2.symm
  · exact jsonDump_state_ne_empty s (Option.some.inj h2).symm

theorem c8_amended_witness :
    (some "old" ≠ some "") ∧
    (saveObservable (some "old") ⟨dtT, Json.null, Json.null⟩).getLast? =
      some (some (jsonDumpIndent2 (ShopState.to_dict ⟨dtT, Json.null, Json.null⟩))) ∧
    some "" ∈ saveObservable (some "old") ⟨dtT, Json.null, Json.null⟩ ∧
    ¬ atomicReplace (some "old") ⟨dtT, Json.null, Json.null⟩ := by
  refine ⟨by simp, ?_⟩
  exact c8_amended (some "old") ⟨dtT, Json.null, Json.null⟩ (by simp)
